import Mathlib

/-!
Verification development for the `code-converter` repository: a rule-based
multi-language code transformer, syntax analyzer, fix engine and quality
metrics engine, plus its Gemini AI wrapper and HTTP route layer.

The core engine (`CodeTransformer`, `CodeAnalyzer`) is invoked by
`src/server/routes/convert.js` but its implementation file is not part of the
source snapshot, so the engine components are modelled from the
specification's component contracts (sections 4.1-4.6 of the spec); each such
definition carries a doc comment starting `Modelled from the spec:`.
The `GeminiService` (src/unnamed/part_000) and the route handlers
(src/server/routes/convert.js) are embedded from their real source.

Text is modelled as `List Char`; the HTTP/JS layer's strings map to char
lists, JS objects to structures, thrown exceptions to `Except`, and the
nondeterministic outcomes of external calls (the Gemini model, Supabase)
to explicit outcome parameters.
-/

namespace CodeConverter

/-! ## Basic text helpers -/

/-- Whitespace characters (space, tab, CR, LF). -/
def isWS (c : Char) : Bool := c = ' ' || c = '\t' || c = '\n' || c = '\r'

/-- `startsW pre l` : `l` begins with the characters of `pre`. -/
def startsW (pre l : List Char) : Bool := l.take pre.length = pre

/-- Last character of a character list, if any. -/
def lastChar : List Char → Option Char
  | [] => none
  | [c] => some c
  | _ :: c :: rest => lastChar (c :: rest)

/-- Drop trailing spaces. -/
def trimR (l : List Char) : List Char := (l.reverse.dropWhile (· = ' ')).reverse

/-- Blank text: nothing but whitespace. -/
def isBlank (l : List Char) : Bool := l.all isWS

/-- Split a character list into lines at `'\n'` (like `String.split` on
newline: the empty text yields one empty line). -/
def splitLines : List Char → List (List Char)
  | [] => [[]]
  | c :: rest =>
    if c = '\n' then [] :: splitLines rest
    else
      match splitLines rest with
      | [] => [[c]]
      | l :: ls => (c :: l) :: ls

/-- Join lines back with `'\n'`. -/
def joinLines : List (List Char) → List Char
  | [] => []
  | [l] => l
  | l :: ls => l ++ '\n' :: joinLines ls

/-- Count of occurrences of `needle` (as a contiguous substring) in `hay`,
one per starting position. -/
def countSub (needle : List Char) : List Char → Nat
  | [] => 0
  | c :: rest => (if startsW needle (c :: rest) then 1 else 0) + countSub needle rest

/-- Substring test: `needle` occurs contiguously in `hay`. -/
def containsSub (needle : List Char) : List Char → Bool
  | [] => needle = []
  | c :: rest => startsW needle (c :: rest) || containsSub needle rest

/-! ## Basic lemmas about the text helpers -/

theorem splitLines_ne_nil (l : List Char) : splitLines l ≠ [] := by
  induction l with
  | nil => simp [splitLines]
  | cons c rest ih =>
    simp only [splitLines]
    split
    · simp
    · cases h : splitLines rest with
      | nil => simp
      | cons a as => simp

theorem splitLines_append_newline (a b : List Char) :
    splitLines (a ++ '\n' :: b) = splitLines a ++ splitLines b := by
  induction a with
  | nil => simp [splitLines]
  | cons c rest ih =>
    by_cases hc : c = '\n'
    · subst hc
      simp [splitLines, ih]
    · simp only [List.cons_append, splitLines, hc, if_false, List.append_eq]
      rw [ih]
      cases h : splitLines rest with
      | nil => exact absurd h (splitLines_ne_nil rest)
      | cons l ls => simp

theorem splitLines_no_newline {l : List Char} (h : '\n' ∉ l) :
    splitLines l = [l] := by
  induction l with
  | nil => simp [splitLines]
  | cons c rest ih =>
    simp only [List.mem_cons, not_or] at h
    have hc : ¬ (c = '\n') := fun hc => h.1 hc.symm
    simp only [splitLines, if_neg hc]
    rw [ih h.2]

theorem mem_splitLines_no_newline (l : List Char) :
    ∀ x ∈ splitLines l, '\n' ∉ x := by
  induction l with
  | nil =>
    intro x hx
    simp only [splitLines, List.mem_singleton] at hx
    simp [hx]
  | cons c rest ih =>
    intro x hx
    by_cases hc : c = '\n'
    · subst hc
      have hsplit : splitLines ('\n' :: rest) = [] :: splitLines rest := by
        simp [splitLines]
      rw [hsplit] at hx
      rcases List.mem_cons.mp hx with h | h
      · simp [h]
      · exact ih x h
    · simp only [splitLines, if_neg hc] at hx
      cases h : splitLines rest with
      | nil => exact absurd h (splitLines_ne_nil rest)
      | cons a as =>
        rw [h] at hx
        simp only [List.mem_cons] at hx
        rcases hx with h1 | h1
        · subst h1
          intro hmem
          rcases List.mem_cons.mp hmem with h2 | h2
          · exact hc h2.symm
          · exact ih a (h ▸ List.mem_cons_self a as) h2
        · exact ih x (h ▸ List.mem_cons_of_mem a h1)

theorem joinLines_cons_cons (l l' : List Char) (ls : List (List Char)) :
    joinLines (l :: l' :: ls) = l ++ '\n' :: joinLines (l' :: ls) := rfl

theorem splitLines_joinLines (ls : List (List Char)) (hne : ls ≠ [])
    (h : ∀ x ∈ ls, '\n' ∉ x) : splitLines (joinLines ls) = ls := by
  induction ls with
  | nil => exact absurd rfl hne
  | cons l rest ih =>
    cases rest with
    | nil =>
      simp only [joinLines]
      exact splitLines_no_newline (h l (List.mem_cons_self l []))
    | cons l' rest' =>
      rw [joinLines_cons_cons, splitLines_append_newline,
        splitLines_no_newline (h l (List.mem_cons_self l _)),
        ih (by simp) (fun x hx => h x (List.mem_cons_of_mem l hx))]
      simp

theorem countSub_cons_ge (needle : List Char) (c : Char) (l : List Char) :
    countSub needle (c :: l) ≥ countSub needle l := by
  simp only [countSub]
  omega

theorem startsW_append (needle l b : List Char) (h : startsW needle l = true) :
    startsW needle (l ++ b) = true := by
  simp only [startsW, decide_eq_true_eq] at h ⊢
  rw [List.take_append_eq_append_take]
  have hlen : needle.length - l.length = 0 := by
    have := congrArg List.length h
    simp only [List.length_take] at this
    omega
  rw [hlen, h]
  simp

theorem countSub_append_ge (needle a b : List Char) :
    countSub needle (a ++ b) ≥ countSub needle a + countSub needle b := by
  induction a with
  | nil => simp [countSub]
  | cons c rest ih =>
    simp only [List.cons_append, countSub, List.append_eq]
    have hs : (if startsW needle (c :: rest) then 1 else 0) ≤
        (if startsW needle (c :: (rest ++ b)) then 1 else 0) := by
      by_cases h : startsW needle (c :: rest)
      · have := startsW_append needle (c :: rest) b h
        simp only [List.cons_append] at this
        simp [h, this]
      · simp [h]
    omega

theorem countSub_pos_of_startsW {needle l : List Char} (hne : needle ≠ [])
    (h : startsW needle l = true) : 1 ≤ countSub needle l := by
  cases l with
  | nil =>
    exfalso
    simp only [startsW, List.take_nil, decide_eq_true_eq] at h
    exact hne h.symm
  | cons c rest => simp [countSub, h]

theorem lastChar_cons_cons (a b : Char) (l : List Char) :
    lastChar (a :: b :: l) = lastChar (b :: l) := rfl

theorem lastChar_append_single (l : List Char) (c : Char) :
    lastChar (l ++ [c]) = some c := by
  induction l with
  | nil => rfl
  | cons a rest ih =>
    cases rest with
    | nil => rfl
    | cons b rest' =>
      have hshape : (a :: b :: rest') ++ [c] = a :: b :: (rest' ++ [c]) := by simp
      rw [hshape, lastChar_cons_cons]
      simpa using ih

/-! ## Bracket balance: stack-based scan and repair

Modelled from the spec: the Syntax Analyzer's "brace/paren/bracket balance
(stack-based matching, reporting the first unmatched closer and any unmatched
opener at end-of-input)" and the Fix Engine's template "insert the missing
closer at the point of first imbalance".  The spec's balance invariant (§8)
requires every balance error to be repairable, so the insertion template is
read as inserting the missing counterpart at the point of imbalance: the
expected closer when an opener is left open, and the matching opener when a
closer arrives with no opener on the stack. -/

def isOpener (c : Char) : Bool := c = '(' || c = '[' || c = '{'

def isCloser (c : Char) : Bool := c = ')' || c = ']' || c = '}'

def isBracket (c : Char) : Bool := isOpener c || isCloser c

def closerFor : Char → Char
  | '(' => ')'
  | '[' => ']'
  | _ => '}'

def openerFor : Char → Char
  | ')' => '('
  | ']' => '['
  | _ => '{'

/-- Modelled from the spec: the analyzer's stack-based bracket scan.  Returns
the first unmatched closer (if any; the scan stops there) and the stack of
openers still unmatched when end-of-input is reached. -/
def balScan (stack : List Char) : List Char → Option Char × List Char
  | [] => (none, stack)
  | c :: rest =>
    if isOpener c then balScan (c :: stack) rest
    else if isCloser c then
      match stack with
      | [] => (some c, [])
      | t :: s => if c = closerFor t then balScan s rest else (some c, t :: s)
    else balScan stack rest

/-- Close pending openers until one matches the closer `c` (emitting the
missing closers) or the stack runs out.  Returns (emitted closers, remaining
stack, whether a matching opener was found). -/
def closeUntil (c : Char) : List Char → List Char × List Char × Bool
  | [] => ([], [], false)
  | t :: s =>
    if c = closerFor t then ([], s, true)
    else
      match closeUntil c s with
      | (em, s', b) => (closerFor t :: em, s', b)

/-- Modelled from the spec: the Fix Engine's bracket repair pass — the
repaired text.  Missing closers are inserted at the point of first imbalance,
a stray closer gets its missing opener, and openers still pending at
end-of-input are closed there. -/
def repairOut (stack : List Char) : List Char → List Char
  | [] => stack.map closerFor
  | c :: rest =>
    if isOpener c then c :: repairOut (c :: stack) rest
    else if isCloser c then
      match closeUntil c stack with
      | (em, s', true) => em ++ c :: repairOut s' rest
      | (em, s', false) => em ++ openerFor c :: c :: repairOut s' rest
    else c :: repairOut stack rest

/-- The characters inserted by `repairOut`, in insertion order. -/
def repairIns (stack : List Char) : List Char → List Char
  | [] => stack.map closerFor
  | c :: rest =>
    if isOpener c then repairIns (c :: stack) rest
    else if isCloser c then
      match closeUntil c stack with
      | (em, s', true) => em ++ repairIns s' rest
      | (em, s', false) => em ++ openerFor c :: repairIns s' rest
    else repairIns stack rest

/-! ### Bracket character facts -/

theorem closerFor_cases (t : Char) :
    closerFor t = ')' ∨ closerFor t = ']' ∨ closerFor t = '}' := by
  unfold closerFor
  split
  · exact Or.inl rfl
  · exact Or.inr (Or.inl rfl)
  · exact Or.inr (Or.inr rfl)

theorem isOpener_closerFor (t : Char) : isOpener (closerFor t) = false := by
  rcases closerFor_cases t with h | h | h <;> rw [h] <;> decide

theorem isCloser_closerFor (t : Char) : isCloser (closerFor t) = true := by
  rcases closerFor_cases t with h | h | h <;> rw [h] <;> decide

theorem isCloser_cases {c : Char} (h : isCloser c = true) :
    c = ')' ∨ c = ']' ∨ c = '}' := by
  simp only [isCloser, Bool.or_eq_true, decide_eq_true_eq] at h
  tauto

theorem isOpener_openerFor {c : Char} (h : isCloser c = true) :
    isOpener (openerFor c) = true := by
  rcases isCloser_cases h with h1 | h1 | h1 <;> subst h1 <;> decide

theorem isOpener_not_isCloser {c : Char} (h : isOpener c = true) :
    isCloser c = false := by
  simp only [isOpener, Bool.or_eq_true, decide_eq_true_eq] at h
  rcases h with (h1 | h1) | h1 <;> subst h1 <;> decide

theorem isCloser_not_isOpener {c : Char} (h : isCloser c = true) :
    isOpener c = false := by
  rcases isCloser_cases h with h1 | h1 | h1 <;> subst h1 <;> decide

theorem closerFor_openerFor {c : Char} (h : isCloser c = true) :
    closerFor (openerFor c) = c := by
  rcases isCloser_cases h with h1 | h1 | h1 <;> subst h1 <;> decide

theorem isBracket_closerFor (t : Char) : isBracket (closerFor t) = true := by
  simp [isBracket, isCloser_closerFor]

theorem isBracket_openerFor {c : Char} (h : isCloser c = true) :
    isBracket (openerFor c) = true := by
  simp [isBracket, isOpener_openerFor h]

/-! ### The bracket scan ignores non-bracket characters -/

theorem balScan_filter (l : List Char) : ∀ stack,
    balScan stack l = balScan stack (l.filter isBracket) := by
  induction l with
  | nil => intro stack; rfl
  | cons c rest ih =>
    intro stack
    by_cases ho : isOpener c = true
    · have hb : isBracket c = true := by simp [isBracket, ho]
      simp [balScan, ho, List.filter_cons, hb, ih]
    · rw [Bool.not_eq_true] at ho
      by_cases hc : isCloser c = true
      · have hb : isBracket c = true := by simp [isBracket, hc]
        simp only [balScan, ho, Bool.false_eq_true, if_false, hc, if_true,
          List.filter_cons, hb]
        cases stack with
        | nil => rfl
        | cons t s =>
          by_cases hm : c = closerFor t
          · simp [hm, ih]
          · simp [hm]
      · rw [Bool.not_eq_true] at hc
        have hb : isBracket c = false := by simp [isBracket, ho, hc]
        simp [balScan, ho, hc, List.filter_cons, hb, ih]

/-! ### Repair produces balanced text -/

theorem balScan_closers (stack : List Char) :
    balScan stack (stack.map closerFor) = (none, []) := by
  induction stack with
  | nil => rfl
  | cons t s ih =>
    simp only [List.map_cons, balScan, isOpener_closerFor t, if_false,
      isCloser_closerFor t, if_true, if_pos rfl]
    exact ih

theorem closeUntil_matched {c : Char} :
    ∀ (stack em s' : List Char), closeUntil c stack = (em, s', true) →
    ∀ z, balScan stack (em ++ c :: z) = balScan s' z := by
  intro stack
  induction stack with
  | nil => intro em s' h; simp [closeUntil] at h
  | cons t s ih =>
    intro em s' h z
    by_cases hm : c = closerFor t
    · rw [closeUntil, if_pos hm] at h
      simp only [Prod.mk.injEq] at h
      obtain ⟨h1, h2, -⟩ := h
      subst h1; subst h2
      simp only [List.nil_append, balScan, isCloser_not_isOpener
        (hm ▸ isCloser_closerFor t), Bool.false_eq_true, if_false,
        hm ▸ isCloser_closerFor t, if_true, if_pos hm]
    · rw [closeUntil, if_neg hm] at h
      rcases hr : closeUntil c s with ⟨em0, s0, b0⟩
      rw [hr] at h
      simp only [Prod.mk.injEq] at h
      obtain ⟨h1, h2, h3⟩ := h
      subst h1
      rw [h3] at hr
      simp only [List.cons_append, balScan, isOpener_closerFor t,
        Bool.false_eq_true, if_false, isCloser_closerFor t, if_true, if_pos rfl]
      rw [← h2]
      exact ih em0 s0 hr z

theorem closeUntil_unmatched {c : Char} :
    ∀ (stack em s' : List Char), closeUntil c stack = (em, s', false) →
    ∀ z, s' = [] ∧ balScan stack (em ++ z) = balScan [] z := by
  intro stack
  induction stack with
  | nil =>
    intro em s' h z
    simp only [closeUntil, Prod.mk.injEq] at h
    obtain ⟨h1, h2, -⟩ := h
    subst h1; subst h2
    simp
  | cons t s ih =>
    intro em s' h z
    by_cases hm : c = closerFor t
    · rw [closeUntil, if_pos hm] at h
      simp at h
    · rw [closeUntil, if_neg hm] at h
      rcases hr : closeUntil c s with ⟨em0, s0, b0⟩
      rw [hr] at h
      simp only [Prod.mk.injEq] at h
      obtain ⟨h1, h2, h3⟩ := h
      subst h1
      rw [h3] at hr
      obtain ⟨hs, hsc⟩ := ih em0 s0 hr z
      refine ⟨h2 ▸ hs, ?_⟩
      simp only [List.cons_append, balScan, isOpener_closerFor t,
        Bool.false_eq_true, if_false, isCloser_closerFor t, if_true, if_pos rfl]
      exact hsc

/-- After the repair pass, the analyzer's bracket scan finds no unmatched
closer and no unmatched opener. -/
theorem balScan_repairOut (l : List Char) : ∀ stack,
    balScan stack (repairOut stack l) = (none, []) := by
  induction l with
  | nil => intro stack; exact balScan_closers stack
  | cons c rest ih =>
    intro stack
    by_cases ho : isOpener c = true
    · simp only [repairOut, ho, if_true, balScan]
      exact ih (c :: stack)
    · rw [Bool.not_eq_true] at ho
      by_cases hc : isCloser c = true
      · rcases hb : closeUntil c stack with ⟨em, s', matched⟩
        cases matched with
        | true =>
          rw [repairOut]
          rw [if_neg (by simp [ho]), if_pos hc, hb]
          rw [closeUntil_matched stack em s' hb]
          exact ih s'
        | false =>
          rw [repairOut]
          rw [if_neg (by simp [ho]), if_pos hc, hb]
          obtain ⟨hs', hsc⟩ := closeUntil_unmatched stack em s' hb
            (openerFor c :: c :: repairOut s' rest)
          rw [hsc]
          simp only [balScan, isOpener_openerFor hc, if_true,
            isCloser_not_isOpener hc, Bool.false_eq_true, if_false, hc,
            closerFor_openerFor hc, if_pos rfl]
          rw [hs']
          exact ih []
      · rw [Bool.not_eq_true] at hc
        simp only [repairOut, ho, Bool.false_eq_true, if_false, hc, balScan]
        exact ih stack

/-! ### Repair is the identity on balanced text -/

theorem repair_id_of_balanced (l : List Char) : ∀ stack,
    balScan stack l = (none, []) →
    repairOut stack l = l ∧ repairIns stack l = [] := by
  induction l with
  | nil =>
    intro stack h
    simp only [balScan, Prod.mk.injEq] at h
    rw [repairOut, repairIns, h.2]
    simp
  | cons c rest ih =>
    intro stack h
    by_cases ho : isOpener c = true
    · simp only [balScan, if_pos ho] at h
      obtain ⟨h1, h2⟩ := ih (c :: stack) h
      rw [repairOut, repairIns, if_pos ho, if_pos ho, h1, h2]
      exact ⟨rfl, rfl⟩
    · rw [Bool.not_eq_true] at ho
      by_cases hc : isCloser c = true
      · cases stack with
        | nil => simp [balScan, ho, hc] at h
        | cons t s =>
          simp only [balScan, ho, Bool.false_eq_true, if_false, hc,
            if_true] at h
          by_cases hm : c = closerFor t
          · rw [if_pos hm] at h
            obtain ⟨h1, h2⟩ := ih s h
            have hcu : closeUntil c (t :: s) = ([], s, true) := by
              rw [closeUntil, if_pos hm]
            rw [repairOut, if_neg (by simp [ho]), if_pos hc, hcu,
              repairIns, if_neg (by simp [ho]), if_pos hc, hcu]
            simp [h1, h2]
          · rw [if_neg hm] at h
            simp at h
      · rw [Bool.not_eq_true] at hc
        simp only [balScan, ho, Bool.false_eq_true, if_false, hc] at h
        obtain ⟨h1, h2⟩ := ih stack h
        rw [repairOut, if_neg (by simp [ho]), if_neg (by simp [hc]),
          repairIns, if_neg (by simp [ho]), if_neg (by simp [hc]), h1, h2]
        exact ⟨rfl, rfl⟩

/-! ## String-literal termination: per-line quote scan

Modelled from the spec: "string-literal termination (quote-parity per line,
respecting escape characters)".  The scan tracks whether the position is
inside a double- or single-quoted literal; a backslash escapes the next
character, and a backslash that ends the line is a line continuation (no
finding). -/

/-- Quote-scan state after a line: `none` = outside any string literal,
`some true` = inside a double-quoted literal, `some false` = inside a
single-quoted literal. -/
def quoteScan (st : Option Bool) : List Char → Option Bool
  | [] => st
  | c :: rest =>
    if c = '\\' then
      match rest with
      | [] => none
      | _ :: r => quoteScan st r
    else
      match st with
      | some dq => if c = (if dq then '"' else '\'') then quoteScan none rest
                   else quoteScan (some dq) rest
      | none =>
        if c = '"' then quoteScan (some true) rest
        else if c = '\'' then quoteScan (some false) rest
        else quoteScan none rest

/-- The quote character for a quote-scan state. -/
def quoteChar (dq : Bool) : Char := if dq then '"' else '\''

theorem quoteChar_ne_backslash (dq : Bool) : quoteChar dq ≠ '\\' := by
  cases dq <;> decide

/-- Closing an unterminated string by appending its quote character at the
end of the line terminates every string literal on the line. -/
theorem quoteScan_close (n : Nat) : ∀ (l : List Char), l.length ≤ n →
    ∀ st dq, quoteScan st l = some dq →
    quoteScan st (l ++ [quoteChar dq]) = none := by
  induction n with
  | zero =>
    intro l hl st dq h
    have hnil : l = [] := List.length_eq_zero.mp (Nat.le_zero.mp hl)
    subst hnil
    simp only [quoteScan] at h
    subst h
    cases dq <;> simp [quoteScan, quoteChar]
  | succ n ih =>
    intro l hl st dq h
    cases l with
    | nil =>
      simp only [quoteScan] at h
      subst h
      cases dq <;> simp [quoteScan, quoteChar]
    | cons c rest =>
      by_cases hbs : c = '\\'
      · subst hbs
        cases rest with
        | nil => simp [quoteScan] at h
        | cons d r =>
          simp only [quoteScan, if_pos rfl] at h
          have hgoal : ('\\' :: d :: r) ++ [quoteChar dq]
              = '\\' :: d :: (r ++ [quoteChar dq]) := by simp
          rw [hgoal]
          simp only [quoteScan, if_pos rfl]
          exact ih r (by simp at hl; omega) st dq h
      · cases st with
        | some dq0 =>
          rw [quoteScan.eq_def] at h
          simp only [hbs, if_false] at h
          rw [show (c :: rest) ++ [quoteChar dq] = c :: (rest ++ [quoteChar dq]) by simp]
          rw [quoteScan.eq_def]
          simp only [hbs, if_false]
          by_cases hcq : c = (if dq0 then '"' else '\'')
          · rw [if_pos hcq] at h
            rw [if_pos hcq]
            exact ih rest (by simp at hl; omega) none dq h
          · rw [if_neg hcq] at h
            rw [if_neg hcq]
            exact ih rest (by simp at hl; omega) (some dq0) dq h
        | none =>
          rw [quoteScan.eq_def] at h
          simp only [hbs, if_false] at h
          rw [show (c :: rest) ++ [quoteChar dq] = c :: (rest ++ [quoteChar dq]) by simp]
          rw [quoteScan.eq_def]
          simp only [hbs, if_false]
          by_cases hdq : c = '"'
          · rw [if_pos hdq] at h
            rw [if_pos hdq]
            exact ih rest (by simp at hl; omega) (some true) dq h
          · rw [if_neg hdq] at h
            rw [if_neg hdq]
            by_cases hsq : c = '\''
            · rw [if_pos hsq] at h
              rw [if_pos hsq]
              exact ih rest (by simp at hl; omega) (some false) dq h
            · rw [if_neg hsq] at h
              rw [if_neg hsq]
              exact ih rest (by simp at hl; omega) none dq h

/-- Appending a non-quote, non-backslash character to a line with all string
literals terminated (and not ending in a line continuation) keeps all string
literals terminated. -/
theorem quoteScan_append_plain (n : Nat) : ∀ (l : List Char), l.length ≤ n →
    ∀ st, quoteScan st l = none → lastChar l ≠ some '\\' →
    ∀ c, c ≠ '"' → c ≠ '\'' → c ≠ '\\' →
    quoteScan st (l ++ [c]) = none := by
  induction n with
  | zero =>
    intro l hl st h hlast c h1 h2 h3
    have hnil : l = [] := List.length_eq_zero.mp (Nat.le_zero.mp hl)
    subst hnil
    simp only [quoteScan] at h
    subst h
    simp [quoteScan, h1, h2, h3]
  | succ n ih =>
    intro l hl st h hlast c h1 h2 h3
    cases l with
    | nil =>
      simp only [quoteScan] at h
      subst h
      simp [quoteScan, h1, h2, h3]
    | cons c0 rest =>
      have hrest_last : lastChar rest ≠ some '\\' := by
        cases rest with
        | nil => simp [lastChar]
        | cons d r => rw [← lastChar_cons_cons c0 d r]; exact hlast
      by_cases hbs : c0 = '\\'
      · subst hbs
        cases rest with
        | nil => simp [lastChar] at hlast
        | cons d r =>
          simp only [quoteScan, if_pos rfl] at h
          rw [show ('\\' :: d :: r) ++ [c] = '\\' :: d :: (r ++ [c]) by simp]
          simp only [quoteScan, if_pos rfl]
          have hr_last : lastChar r ≠ some '\\' := by
            cases r with
            | nil => simp [lastChar]
            | cons e r' =>
              rw [← lastChar_cons_cons d e r']
              exact hrest_last
          exact ih r (by simp at hl; omega) st h hr_last c h1 h2 h3
      · cases st with
        | some dq0 =>
          rw [quoteScan.eq_def] at h
          simp only [hbs, if_false] at h
          rw [show (c0 :: rest) ++ [c] = c0 :: (rest ++ [c]) by simp]
          rw [quoteScan.eq_def]
          simp only [hbs, if_false]
          by_cases hcq : c0 = (if dq0 then '"' else '\'')
          · rw [if_pos hcq] at h
            rw [if_pos hcq]
            exact ih rest (by simp at hl; omega) none h hrest_last c h1 h2 h3
          · rw [if_neg hcq] at h
            rw [if_neg hcq]
            exact ih rest (by simp at hl; omega) (some dq0) h hrest_last c h1 h2 h3
        | none =>
          rw [quoteScan.eq_def] at h
          simp only [hbs, if_false] at h
          rw [show (c0 :: rest) ++ [c] = c0 :: (rest ++ [c]) by simp]
          rw [quoteScan.eq_def]
          simp only [hbs, if_false]
          by_cases hdq : c0 = '"'
          · rw [if_pos hdq] at h
            rw [if_pos hdq]
            exact ih rest (by simp at hl; omega) (some true) h hrest_last c h1 h2 h3
          · rw [if_neg hdq] at h
            rw [if_neg hdq]
            by_cases hsq : c0 = '\''
            · rw [if_pos hsq] at h
              rw [if_pos hsq]
              exact ih rest (by simp at hl; omega) (some false) h hrest_last c h1 h2 h3
            · rw [if_neg hsq] at h
              rw [if_neg hsq]
              exact ih rest (by simp at hl; omega) none h hrest_last c h1 h2 h3

/-! ## Languages -/

/-- The supported six-language set (the closed set of §6; the client offers
exactly these tags). -/
inductive Lang
  | python
  | java
  | javascript
  | csharp
  | cpp
  | go
deriving DecidableEq

/-- Map a language tag string onto the supported set; any other tag is
unsupported. -/
def parseLang (tag : List Char) : Option Lang :=
  if tag = "Python".toList then some .python
  else if tag = "Java".toList then some .java
  else if tag = "JavaScript".toList then some .javascript
  else if tag = "C#".toList then some .csharp
  else if tag = "C++".toList then some .cpp
  else if tag = "Go".toList then some .go
  else none

/-- Modelled from the spec: the "terminator-requiring languages" of §4.4/§4.5
(statement-terminator conventions); the curly/static languages require `;`,
Python and Go do not. -/
def requiresTerminator : Lang → Bool
  | .java => true
  | .javascript => true
  | .csharp => true
  | .cpp => true
  | _ => false

/-- The language's full-line comment-start token. -/
def commentTok : Lang → List Char
  | .python => ['#']
  | _ => ['/', '/']

/-! ## Syntax Analyzer

Modelled from the spec (§4.4): `analyzeSyntax(code, language)` returns
`{errors[], warnings[], suggestions[]}` from language-specific structural
checks: bracket balance and string termination (errors), statement
terminators for terminator-requiring languages (errors, since the Fix
Engine's terminator template consumes them), indentation-block consistency
(warnings) and long lines (style suggestions). -/

inductive Finding
  | unmatchedCloser (c : Char)
  | unmatchedOpener (c : Char)
  | unterminatedString (q : Char) (line : Nat)
  | missingTerminator (line : Nat)
  | blockWithoutIndent (line : Nat)
  | longLine (line : Nat)
deriving DecidableEq

/-- Brace/paren/bracket balance findings. -/
def isBalanceFinding : Finding → Bool
  | .unmatchedCloser _ => true
  | .unmatchedOpener _ => true
  | _ => false

/-- Bracket-balance errors: the first unmatched closer (the scan stops
there), or the openers still unmatched at end-of-input. -/
def bracketFindings (code : List Char) : List Finding :=
  match balScan [] code with
  | (some c, _) => [.unmatchedCloser c]
  | (none, stack) => stack.map Finding.unmatchedOpener

/-- Per-line unterminated-string errors (quote parity, respecting escapes). -/
def stringFindings : Nat → List (List Char) → List Finding
  | _, [] => []
  | n, l :: ls =>
    (match quoteScan none l with
     | some dq => [.unterminatedString (quoteChar dq) n]
     | none => []) ++ stringFindings (n + 1) ls

/-- A line starting with `//` (after indentation) is a comment line for the
terminator convention. -/
def isCommentLine (l : List Char) : Bool :=
  startsW ['/', '/'] (l.dropWhile (· = ' '))

/-- Lines exempt from the statement-terminator convention: blank lines,
comment lines, lines already terminated and block delimiters, and
line continuations. -/
def termExempt (l : List Char) : Bool :=
  isCommentLine l ||
  match lastChar l with
  | none => true
  | some c => c = ';' || c = '{' || c = '}' || c = '\\'

/-- Per-line missing statement-terminator errors. -/
def terminatorFindings : Nat → List (List Char) → List Finding
  | _, [] => []
  | n, l :: ls =>
    (if termExempt l then [] else [.missingTerminator n]) ++
      terminatorFindings (n + 1) ls

/-- Leading-space indentation depth of a line. -/
def indentOf (l : List Char) : Nat := (l.takeWhile (· = ' ')).length

/-- An indentation-style block header (ending `:`) not followed by a
deeper-indented line. -/
def headerNotIndented (l : List Char) : List (List Char) → Bool
  | [] => lastChar l = some ':'
  | l2 :: _ => lastChar l = some ':' && decide (indentOf l2 ≤ indentOf l)

/-- Indentation-consistency warnings for indentation-block languages. -/
def indentFindings : Nat → List (List Char) → List Finding
  | _, [] => []
  | n, l :: ls =>
    (if headerNotIndented l ls then [.blockWithoutIndent n] else []) ++
      indentFindings (n + 1) ls

/-- Long-line style suggestions. -/
def suggestionFindings : Nat → List (List Char) → List Finding
  | _, [] => []
  | n, l :: ls =>
    (if 100 < l.length then [.longLine n] else []) ++
      suggestionFindings (n + 1) ls

structure AnalysisResult where
  errors : List Finding
  warnings : List Finding
  suggestions : List Finding
deriving DecidableEq

/-- Modelled from the spec: the Syntax Analyzer entry point (§4.4). -/
def analyzeSyntax (code : List Char) (lang : Lang) : AnalysisResult :=
  let ls := splitLines code
  { errors := bracketFindings code ++ stringFindings 1 ls ++
      (if requiresTerminator lang then terminatorFindings 1 ls else []),
    warnings := if lang = .python then indentFindings 1 ls else [],
    suggestions := suggestionFindings 1 ls }

/-! ## Fix Engine

Modelled from the spec (§4.5): `fixSyntaxErrors(code, language)` consumes the
analyzer's Error findings and applies one deterministic corrective template
per finding kind — bracket repair over the whole text, then the closing
quote appended at the end of each line with an unterminated string, then a
`;` appended to each terminator-needing line (for terminator-requiring
languages).  Each applied edit produces one `FixRecord`. -/

inductive FixRecord
  | insertBracket (c : Char)
  | closeString (q : Char) (line : Nat)
  | insertTerminator (line : Nat)
deriving DecidableEq

/-- Close an unterminated string at the end of its line. -/
def quoteFixL (l : List Char) : List Char :=
  match quoteScan none l with
  | some dq => l ++ [quoteChar dq]
  | none => l

/-- Fix record for the string-closing edit on one line. -/
def quoteFixR (n : Nat) (l : List Char) : List FixRecord :=
  match quoteScan none l with
  | some dq => [.closeString (quoteChar dq) n]
  | none => []

/-- Insert the missing statement terminator at line end. -/
def termFixL (l : List Char) : List Char :=
  if termExempt l then l else l ++ [';']

/-- Fix record for the terminator edit on one line. -/
def termFixR (n : Nat) (l : List Char) : List FixRecord :=
  if termExempt l then [] else [.insertTerminator n]

/-- The per-line fixes applied to one line, in order. -/
def fixLine (lang : Lang) (l : List Char) : List Char :=
  if requiresTerminator lang then termFixL (quoteFixL l) else quoteFixL l

/-- Fix records for one line. -/
def fixLineRecords (lang : Lang) (n : Nat) (l : List Char) : List FixRecord :=
  quoteFixR n l ++
    (if requiresTerminator lang then termFixR n (quoteFixL l) else [])

/-- Per-line fixes over all lines. -/
def fixLinesL (lang : Lang) (ls : List (List Char)) : List (List Char) :=
  ls.map (fixLine lang)

/-- Fix records over all lines (1-based line numbers). -/
def fixLinesR (lang : Lang) : Nat → List (List Char) → List FixRecord
  | _, [] => []
  | n, l :: ls => fixLineRecords lang n l ++ fixLinesR lang (n + 1) ls

structure FixResult where
  code : List Char
  fixes : List FixRecord
deriving DecidableEq

/-- Modelled from the spec: the Fix Engine entry point (§4.5). -/
def fixSyntaxErrors (code : List Char) (lang : Lang) : FixResult :=
  let b := repairOut [] code
  { code := joinLines (fixLinesL lang (splitLines b)),
    fixes := (repairIns [] code).map FixRecord.insertBracket ++
      fixLinesR lang 1 (splitLines b) }

/-! ## Per-line fix lemmas -/

theorem quoteScan_quoteFixL (l : List Char) :
    quoteScan none (quoteFixL l) = none := by
  unfold quoteFixL
  cases h : quoteScan none l with
  | some dq => exact quoteScan_close l.length l le_rfl none dq h
  | none => exact h

theorem termExempt_false_lastChar {l : List Char} (h : termExempt l = false) :
    lastChar l ≠ some '\\' := by
  unfold termExempt at h
  rw [Bool.or_eq_false_iff] at h
  cases hl : lastChar l with
  | none => rw [hl] at h; simp at h
  | some c =>
    rw [hl] at h
    simp only [Bool.or_eq_false_iff, decide_eq_false_iff_not] at h
    intro hcontra
    injection hcontra with hc
    subst hc
    tauto

theorem quoteScan_fixLine (lang : Lang) (l : List Char) :
    quoteScan none (fixLine lang l) = none := by
  unfold fixLine
  by_cases hreq : requiresTerminator lang = true
  · rw [if_pos hreq]
    unfold termFixL
    by_cases hex : termExempt (quoteFixL l) = true
    · rw [if_pos hex]
      exact quoteScan_quoteFixL l
    · rw [Bool.not_eq_true] at hex
      rw [if_neg (by simp [hex])]
      exact quoteScan_append_plain (quoteFixL l).length (quoteFixL l) le_rfl
        none (quoteScan_quoteFixL l) (termExempt_false_lastChar hex) ';'
        (by decide) (by decide) (by decide)
  · rw [if_neg hreq]
    exact quoteScan_quoteFixL l

theorem termExempt_append_semi (l : List Char) :
    termExempt (l ++ [';']) = true := by
  unfold termExempt
  rw [lastChar_append_single]
  simp

theorem termExempt_fixLine {lang : Lang} (l : List Char)
    (h : requiresTerminator lang = true) :
    termExempt (fixLine lang l) = true := by
  unfold fixLine
  rw [if_pos h]
  unfold termFixL
  by_cases hex : termExempt (quoteFixL l) = true
  · rw [if_pos hex]; exact hex
  · rw [Bool.not_eq_true] at hex
    rw [if_neg (by simp [hex])]
    exact termExempt_append_semi _

theorem quoteFixL_of_scan_none {l : List Char} (h : quoteScan none l = none) :
    quoteFixL l = l := by
  unfold quoteFixL
  rw [h]

theorem termFixL_of_exempt {l : List Char} (h : termExempt l = true) :
    termFixL l = l := by
  unfold termFixL
  rw [if_pos h]

theorem fixLine_fixLine (lang : Lang) (l : List Char) :
    fixLine lang (fixLine lang l) = fixLine lang l := by
  by_cases hreq : requiresTerminator lang = true
  · conv_lhs => rw [fixLine]
    rw [if_pos hreq, quoteFixL_of_scan_none (quoteScan_fixLine lang l),
      termFixL_of_exempt (termExempt_fixLine l hreq)]
  · conv_lhs => rw [fixLine]
    rw [if_neg hreq, quoteFixL_of_scan_none (quoteScan_fixLine lang l)]

theorem fixLineRecords_fixLine (lang : Lang) (n : Nat) (l : List Char) :
    fixLineRecords lang n (fixLine lang l) = [] := by
  unfold fixLineRecords
  rw [show quoteFixR n (fixLine lang l) = [] from by
    unfold quoteFixR; rw [quoteScan_fixLine lang l]]
  by_cases hreq : requiresTerminator lang = true
  · rw [if_pos hreq, quoteFixL_of_scan_none (quoteScan_fixLine lang l)]
    unfold termFixR
    rw [if_pos (termExempt_fixLine l hreq)]
    rfl
  · rw [if_neg hreq]
    rfl

theorem isBracket_quoteChar (dq : Bool) : isBracket (quoteChar dq) = false := by
  cases dq <;> decide

theorem filter_isBracket_quoteFixL (l : List Char) :
    (quoteFixL l).filter isBracket = l.filter isBracket := by
  unfold quoteFixL
  cases h : quoteScan none l with
  | some dq => rw [List.filter_append]; simp [isBracket_quoteChar]
  | none => rfl

theorem filter_isBracket_fixLine (lang : Lang) (l : List Char) :
    (fixLine lang l).filter isBracket = l.filter isBracket := by
  unfold fixLine
  by_cases hreq : requiresTerminator lang = true
  · rw [if_pos hreq]
    unfold termFixL
    by_cases hex : termExempt (quoteFixL l) = true
    · rw [if_pos hex]
      exact filter_isBracket_quoteFixL l
    · rw [Bool.not_eq_true] at hex
      rw [if_neg (by simp [hex]), List.filter_append]
      rw [show List.filter isBracket [';'] = [] from by decide]
      rw [List.append_nil]
      exact filter_isBracket_quoteFixL l
  · rw [if_neg hreq]
    exact filter_isBracket_quoteFixL l

theorem quoteChar_ne_newline (dq : Bool) : quoteChar dq ≠ '\n' := by
  cases dq <;> decide

theorem no_newline_fixLine (lang : Lang) {l : List Char} (h : '\n' ∉ l) :
    '\n' ∉ fixLine lang l := by
  unfold fixLine
  have hq : '\n' ∉ quoteFixL l := by
    unfold quoteFixL
    cases hs : quoteScan none l with
    | some dq =>
      intro hmem
      rcases List.mem_append.mp hmem with hm | hm
      · exact h hm
      · exact quoteChar_ne_newline dq (List.mem_singleton.mp hm).symm
    | none => exact h
  by_cases hreq : requiresTerminator lang = true
  · rw [if_pos hreq]
    unfold termFixL
    by_cases hex : termExempt (quoteFixL l) = true
    · rw [if_pos hex]; exact hq
    · rw [Bool.not_eq_true] at hex
      rw [if_neg (by simp [hex])]
      intro hmem
      rcases List.mem_append.mp hmem with hm | hm
      · exact hq hm
      · simp at hm
  · rw [if_neg hreq]
    exact hq

/-! ## Line-list fix lemmas -/

theorem filter_isBracket_joinLines_fixLinesL (lang : Lang) :
    ∀ ls, (joinLines (fixLinesL lang ls)).filter isBracket =
      (joinLines ls).filter isBracket := by
  intro ls
  induction ls with
  | nil => rfl
  | cons l rest ih =>
    cases rest with
    | nil =>
      simp only [fixLinesL, List.map_cons, List.map_nil, joinLines]
      exact filter_isBracket_fixLine lang l
    | cons l' rest' =>
      have hshape : fixLinesL lang (l :: l' :: rest')
          = fixLine lang l :: fixLine lang l' :: fixLinesL lang rest' := rfl
      have hsh2 : fixLine lang l' :: fixLinesL lang rest'
          = fixLinesL lang (l' :: rest') := rfl
      have hstep : ∀ (z : List Char),
          List.filter isBracket ('\n' :: z) = List.filter isBracket z := by
        intro z
        rw [List.filter_cons, show isBracket '\n' = false from by decide]
        simp
      rw [hshape, joinLines_cons_cons, joinLines_cons_cons,
        List.filter_append, List.filter_append, hstep, hstep,
        filter_isBracket_fixLine lang l, hsh2, ih]

theorem fixLinesL_fixLinesL (lang : Lang) (ls : List (List Char)) :
    fixLinesL lang (fixLinesL lang ls) = fixLinesL lang ls := by
  induction ls with
  | nil => rfl
  | cons l rest ih =>
    simp only [fixLinesL, List.map_cons] at ih ⊢
    rw [fixLine_fixLine]
    exact congrArg _ ih

theorem fixLinesR_fixLinesL (lang : Lang) (ls : List (List Char)) :
    ∀ n, fixLinesR lang n (fixLinesL lang ls) = [] := by
  induction ls with
  | nil => intro n; rfl
  | cons l rest ih =>
    intro n
    have hshape : fixLinesL lang (l :: rest)
        = fixLine lang l :: fixLinesL lang rest := rfl
    rw [hshape, fixLinesR, fixLineRecords_fixLine, ih (n + 1)]
    rfl

theorem fixLinesL_ne_nil (lang : Lang) {ls : List (List Char)} (h : ls ≠ []) :
    fixLinesL lang ls ≠ [] := by
  cases ls with
  | nil => exact absurd rfl h
  | cons l rest => simp [fixLinesL]

theorem mem_fixLinesL_no_newline (lang : Lang) {ls : List (List Char)}
    (h : ∀ x ∈ ls, '\n' ∉ x) : ∀ x ∈ fixLinesL lang ls, '\n' ∉ x := by
  intro x hx
  rcases List.mem_map.mp hx with ⟨l, hl, rfl⟩
  exact no_newline_fixLine lang (h l hl)

/-! ## The fixed code is balanced, and fixing is idempotent -/

theorem joinLines_splitLines (l : List Char) : joinLines (splitLines l) = l := by
  induction l with
  | nil => rfl
  | cons c rest ih =>
    by_cases hc : c = '\n'
    · subst hc
      have hsplit : splitLines ('\n' :: rest) = [] :: splitLines rest := by
        simp [splitLines]
      rw [hsplit]
      cases h : splitLines rest with
      | nil => exact absurd h (splitLines_ne_nil rest)
      | cons a as =>
        rw [joinLines_cons_cons]
        simp only [List.nil_append]
        rw [← h, ih]
    · simp only [splitLines, if_neg hc]
      cases h : splitLines rest with
      | nil => exact absurd h (splitLines_ne_nil rest)
      | cons a as =>
        cases as with
        | nil =>
          rw [h] at ih
          simp only [joinLines] at ih ⊢
          rw [ih]
        | cons b bs =>
          rw [h] at ih
          rw [joinLines_cons_cons] at ih
          rw [joinLines_cons_cons]
          simp only [List.cons_append]
          rw [ih]

theorem balScan_fixSyntaxErrors (code : List Char) (lang : Lang) :
    balScan [] (fixSyntaxErrors code lang).code = (none, []) := by
  show balScan [] (joinLines (fixLinesL lang (splitLines (repairOut [] code)))) = _
  rw [balScan_filter, filter_isBracket_joinLines_fixLinesL,
    joinLines_splitLines, ← balScan_filter]
  exact balScan_repairOut code []

theorem splitLines_fix_code (code : List Char) (lang : Lang) :
    splitLines (fixSyntaxErrors code lang).code
      = fixLinesL lang (splitLines (repairOut [] code)) := by
  show splitLines (joinLines (fixLinesL lang (splitLines (repairOut [] code)))) = _
  exact splitLines_joinLines _
    (fixLinesL_ne_nil lang (splitLines_ne_nil _))
    (mem_fixLinesL_no_newline lang (mem_splitLines_no_newline _))

theorem fixSyntaxErrors_idem_aux (code : List Char) (lang : Lang) :
    fixSyntaxErrors (fixSyntaxErrors code lang).code lang
      = ⟨(fixSyntaxErrors code lang).code, []⟩ := by
  obtain ⟨hout, hins⟩ :=
    repair_id_of_balanced _ [] (balScan_fixSyntaxErrors code lang)
  have hstep : fixSyntaxErrors (fixSyntaxErrors code lang).code lang
      = ⟨joinLines (fixLinesL lang
          (splitLines (repairOut [] (fixSyntaxErrors code lang).code))),
         (repairIns [] (fixSyntaxErrors code lang).code).map
            FixRecord.insertBracket
           ++ fixLinesR lang 1
              (splitLines (repairOut [] (fixSyntaxErrors code lang).code))⟩ :=
    rfl
  rw [hstep, hout, hins, splitLines_fix_code, fixLinesL_fixLinesL]
  rw [fixLinesR_fixLinesL lang _ 1]
  have hcode : (fixSyntaxErrors code lang).code
      = joinLines (fixLinesL lang (splitLines (repairOut [] code))) := rfl
  rw [← hcode]
  simp

theorem filter_balance_stringFindings : ∀ (n : Nat) (ls : List (List Char)),
    (stringFindings n ls).filter isBalanceFinding = [] := by
  intro n ls
  induction ls generalizing n with
  | nil => rfl
  | cons l rest ih =>
    rw [stringFindings, List.filter_append, ih (n + 1), List.append_nil]
    cases h : quoteScan none l with
    | some dq => simp [isBalanceFinding]
    | none => simp

theorem filter_balance_terminatorFindings : ∀ (n : Nat) (ls : List (List Char)),
    (terminatorFindings n ls).filter isBalanceFinding = [] := by
  intro n ls
  induction ls generalizing n with
  | nil => rfl
  | cons l rest ih =>
    rw [terminatorFindings, List.filter_append, ih (n + 1), List.append_nil]
    by_cases h : termExempt l = true
    · simp [h]
    · rw [Bool.not_eq_true] at h
      simp [h, isBalanceFinding]

/-- After `fixSyntaxErrors`, a fresh `analyzeSyntax` run reports zero
brace/paren/bracket-balance errors. -/
theorem analyzeSyntax_fix_balance_aux (code : List Char) (lang : Lang) :
    ((analyzeSyntax (fixSyntaxErrors code lang).code lang).errors).filter
      isBalanceFinding = [] := by
  have herr : (analyzeSyntax (fixSyntaxErrors code lang).code lang).errors
      = bracketFindings (fixSyntaxErrors code lang).code ++
        stringFindings 1 (splitLines (fixSyntaxErrors code lang).code) ++
        (if requiresTerminator lang then
          terminatorFindings 1 (splitLines (fixSyntaxErrors code lang).code)
         else []) := rfl
  rw [herr, List.filter_append, List.filter_append]
  have hb : bracketFindings (fixSyntaxErrors code lang).code = [] := by
    unfold bracketFindings
    rw [balScan_fixSyntaxErrors]
    rfl
  rw [hb, filter_balance_stringFindings]
  by_cases h : requiresTerminator lang = true
  · rw [if_pos h, filter_balance_terminatorFindings]
    rfl
  · rw [if_neg h]
    rfl

/-! ## Intermediate Representation

Modelled from the spec (§3): `IRNode` has a kind, attributes (identifier
names, parameters, condition/operand text, and the raw source text held
verbatim by `Unknown` nodes), and ordered children. -/

inductive IRKind
  | program
  | functionDecl
  | classDecl
  | varDecl
  | assignment
  | ifStmt
  | forStmt
  | whileStmt
  | printStmt
  | returnStmt
  | comment
  | unknown
deriving DecidableEq

mutual
inductive IRNode where
  | node (kind : IRKind) (name params expr raw : List Char) (children : IRList)
inductive IRList where
  | nil
  | cons (hd : IRNode) (tl : IRList)
end

/-- The kind of an IR node. -/
def kindOf : IRNode → IRKind
  | .node k _ _ _ _ _ => k

/-! ## Frontend Extractor

Modelled from the spec (§4.1): for each line, every `ConstructPattern`
registered for the source language is attempted in priority order (most
specific first); on first match a typed IR node with captured attributes is
emitted, on no match an `Unknown` node wrapping the raw text.  Nesting is by
indentation for the scripting language and by braces for the curly-brace
languages. -/

/-- A matched construct for one source line. -/
structure LineMatch where
  kind : IRKind
  name : List Char := []
  params : List Char := []
  expr : List Char := []
  blockHeader : Bool := false
deriving DecidableEq

def upTo (c : Char) (l : List Char) : List Char := l.takeWhile (· ≠ c)

def afterCh (c : Char) (l : List Char) : List Char :=
  (l.dropWhile (· ≠ c)).drop 1

def containsCh (c : Char) (l : List Char) : Bool := l.any (· = c)

def dropLastN (n : Nat) (l : List Char) : List Char := l.take (l.length - n)

def afterPre (pre l : List Char) : List Char := l.drop pre.length

def trimL (l : List Char) : List Char := l.dropWhile (· = ' ')

/-- Strip a trailing semicolon, if present. -/
def stripSemi (l : List Char) : List Char :=
  if lastChar l = some ';' then dropLastN 1 l else l

def matchLinePython (l : List Char) : Option LineMatch :=
  if startsW (['#']) l then some { kind := .comment, expr := trimL (l.drop 1) }
  else if startsW ("def ".toList) l ∧ containsCh '(' l ∧ lastChar l = some ':' then
    some { kind := .functionDecl, name := upTo '(' (l.drop 4),
           params := upTo ')' (afterCh '(' l), blockHeader := true }
  else if startsW ("class ".toList) l ∧ lastChar l = some ':' then
    some { kind := .classDecl,
           name := (l.drop 6).takeWhile (fun c => c != ':' && c != '('),
           blockHeader := true }
  else if startsW ("if ".toList) l ∧ lastChar l = some ':' then
    some { kind := .ifStmt, expr := dropLastN 1 (l.drop 3), blockHeader := true }
  else if startsW ("for ".toList) l ∧ lastChar l = some ':' then
    some { kind := .forStmt, expr := dropLastN 1 (l.drop 4), blockHeader := true }
  else if startsW ("while ".toList) l ∧ lastChar l = some ':' then
    some { kind := .whileStmt, expr := dropLastN 1 (l.drop 6), blockHeader := true }
  else if startsW ("return".toList) l then
    some { kind := .returnStmt, expr := trimL (l.drop 6) }
  else if startsW ("print(".toList) l ∧ lastChar l = some ')' then
    some { kind := .printStmt, expr := dropLastN 1 (l.drop 6) }
  else if containsSub (" = ".toList) l then
    some { kind := .assignment, name := trimR (upTo '=' l),
           expr := trimL (afterCh '=' l) }
  else none

def matchLineJS (l : List Char) : Option LineMatch :=
  if startsW (['/', '/']) l then some { kind := .comment, expr := trimL (l.drop 2) }
  else if startsW ("function ".toList) l ∧ containsCh '(' l then
    some { kind := .functionDecl, name := upTo '(' (l.drop 9),
           params := upTo ')' (afterCh '(' l),
           blockHeader := lastChar l = some '{' }
  else if startsW ("class ".toList) l then
    some { kind := .classDecl,
           name := (l.drop 6).takeWhile (fun c => c != ' ' && c != '{'),
           blockHeader := lastChar l = some '{' }
  else if startsW ("if ".toList) l ∨ startsW ("if(".toList) l then
    some { kind := .ifStmt, expr := upTo ')' (afterCh '(' l),
           blockHeader := lastChar l = some '{' }
  else if startsW ("for ".toList) l ∨ startsW ("for(".toList) l then
    some { kind := .forStmt, expr := upTo ')' (afterCh '(' l),
           blockHeader := lastChar l = some '{' }
  else if startsW ("while ".toList) l ∨ startsW ("while(".toList) l then
    some { kind := .whileStmt, expr := upTo ')' (afterCh '(' l),
           blockHeader := lastChar l = some '{' }
  else if startsW ("console.log(".toList) l then
    some { kind := .printStmt, expr := upTo ')' (afterCh '(' l) }
  else if startsW ("return ".toList) l then
    some { kind := .returnStmt, expr := stripSemi (l.drop 7) }
  else if (startsW ("let ".toList) l ∨ startsW ("const ".toList) l ∨
      startsW ("var ".toList) l) ∧ containsCh '=' l then
    some { kind := .varDecl, name := trimR (upTo '=' (trimL (afterCh ' ' l))),
           expr := stripSemi (trimL (afterCh '=' l)) }
  else if containsSub (" = ".toList) l then
    some { kind := .assignment, name := trimR (upTo '=' l),
           expr := stripSemi (trimL (afterCh '=' l)) }
  else none

def matchLineJava (l : List Char) : Option LineMatch :=
  if startsW (['/', '/']) l then some { kind := .comment, expr := trimL (l.drop 2) }
  else if startsW ("public class ".toList) l then
    some { kind := .classDecl,
           name := (l.drop 13).takeWhile (fun c => c != ' ' && c != '{'),
           blockHeader := lastChar l = some '{' }
  else if startsW ("class ".toList) l then
    some { kind := .classDecl,
           name := (l.drop 6).takeWhile (fun c => c != ' ' && c != '{'),
           blockHeader := lastChar l = some '{' }
  else if startsW ("if ".toList) l ∨ startsW ("if(".toList) l then
    some { kind := .ifStmt, expr := upTo ')' (afterCh '(' l),
           blockHeader := lastChar l = some '{' }
  else if startsW ("for ".toList) l ∨ startsW ("for(".toList) l then
    some { kind := .forStmt, expr := upTo ')' (afterCh '(' l),
           blockHeader := lastChar l = some '{' }
  else if startsW ("while ".toList) l ∨ startsW ("while(".toList) l then
    some { kind := .whileStmt, expr := upTo ')' (afterCh '(' l),
           blockHeader := lastChar l = some '{' }
  else if startsW ("System.out.println(".toList) l then
    some { kind := .printStmt, expr := upTo ')' (afterCh '(' l) }
  else if startsW ("return ".toList) l then
    some { kind := .returnStmt, expr := stripSemi (l.drop 7) }
  else if (startsW ("public ".toList) l ∨ startsW ("private ".toList) l ∨
      startsW ("static ".toList) l ∨ startsW ("void ".toList) l) ∧
      containsCh '(' l ∧ lastChar l = some '{' then
    some { kind := .functionDecl,
           name := trimR (upTo '(' l) |>.reverse.takeWhile (· != ' ') |>.reverse,
           params := upTo ')' (afterCh '(' l), blockHeader := true }
  else if containsSub (" = ".toList) l then
    some { kind := .assignment, name := trimR (upTo '=' l),
           expr := stripSemi (trimL (afterCh '=' l)) }
  else none

def matchLineCSharp (l : List Char) : Option LineMatch :=
  if startsW (['/', '/']) l then some { kind := .comment, expr := trimL (l.drop 2) }
  else if startsW ("Console.WriteLine(".toList) l then
    some { kind := .printStmt, expr := upTo ')' (afterCh '(' l) }
  else matchLineJava l

def matchLineCpp (l : List Char) : Option LineMatch :=
  if startsW (['/', '/']) l then some { kind := .comment, expr := trimL (l.drop 2) }
  else if startsW (['#']) l then some { kind := .comment, expr := l.drop 1 }
  else if startsW ("std::cout".toList) l then
    some { kind := .printStmt, expr := trimL (l.drop 9) }
  else if startsW ("if ".toList) l ∨ startsW ("if(".toList) l then
    some { kind := .ifStmt, expr := upTo ')' (afterCh '(' l),
           blockHeader := lastChar l = some '{' }
  else if startsW ("for ".toList) l ∨ startsW ("for(".toList) l then
    some { kind := .forStmt, expr := upTo ')' (afterCh '(' l),
           blockHeader := lastChar l = some '{' }
  else if startsW ("while ".toList) l ∨ startsW ("while(".toList) l then
    some { kind := .whileStmt, expr := upTo ')' (afterCh '(' l),
           blockHeader := lastChar l = some '{' }
  else if startsW ("return ".toList) l then
    some { kind := .returnStmt, expr := stripSemi (l.drop 7) }
  else if (startsW ("void ".toList) l ∨ startsW ("int ".toList) l) ∧
      containsCh '(' l ∧ lastChar l = some '{' then
    some { kind := .functionDecl,
           name := trimR (upTo '(' l) |>.reverse.takeWhile (· != ' ') |>.reverse,
           params := upTo ')' (afterCh '(' l), blockHeader := true }
  else if startsW ("class ".toList) l then
    some { kind := .classDecl,
           name := (l.drop 6).takeWhile (fun c => c != ' ' && c != '{'),
           blockHeader := lastChar l = some '{' }
  else if containsSub (" = ".toList) l then
    some { kind := .assignment, name := trimR (upTo '=' l),
           expr := stripSemi (trimL (afterCh '=' l)) }
  else none

def matchLineGo (l : List Char) : Option LineMatch :=
  if startsW (['/', '/']) l then some { kind := .comment, expr := trimL (l.drop 2) }
  else if startsW ("func ".toList) l ∧ containsCh '(' l then
    some { kind := .functionDecl, name := upTo '(' (l.drop 5),
           params := upTo ')' (afterCh '(' l),
           blockHeader := lastChar l = some '{' }
  else if startsW ("if ".toList) l then
    some { kind := .ifStmt, expr := dropLastN 1 (trimR (l.drop 3)),
           blockHeader := lastChar l = some '{' }
  else if startsW ("for ".toList) l then
    some { kind := .forStmt, expr := dropLastN 1 (trimR (l.drop 4)),
           blockHeader := lastChar l = some '{' }
  else if startsW ("fmt.Println(".toList) l then
    some { kind := .printStmt, expr := upTo ')' (afterCh '(' l) }
  else if startsW ("return ".toList) l then
    some { kind := .returnStmt, expr := l.drop 7 }
  else if containsSub (" := ".toList) l then
    some { kind := .varDecl, name := trimR (upTo ':' l),
           expr := trimL (afterCh '=' l) }
  else if containsSub (" = ".toList) l then
    some { kind := .assignment, name := trimR (upTo '=' l),
           expr := trimL (afterCh '=' l) }
  else none

/-- Modelled from the spec: per-language construct patterns, attempted most
specific first. -/
def matchLine : Lang → List Char → Option LineMatch
  | .python, l => matchLinePython l
  | .javascript, l => matchLineJS l
  | .java, l => matchLineJava l
  | .csharp, l => matchLineCSharp l
  | .cpp, l => matchLineCpp l
  | .go, l => matchLineGo l

/-- Indentation-delimited (`false`) vs brace-delimited (`true`) blocks. -/
def braceStyle : Lang → Bool
  | .python => false
  | _ => true

/-- Modelled from the spec: the line/block parser.  `lvl` is the minimum
indentation of the current block (indentation style), `depth` the brace
nesting depth (brace style); a matched block header collects the following
lines as its children; an unmatched line degrades to an `Unknown` node
holding the raw line verbatim.  The fuel argument bounds recursion and is
chosen large enough to consume every line. -/
def parseLines (lang : Lang) : Nat → Nat → Nat → List (List Char) → IRList × List (List Char)
  | 0, _, _, ls => (.nil, ls)
  | _ + 1, _, _, [] => (.nil, [])
  | fuel + 1, lvl, depth, l :: rest =>
    if braceStyle lang = true ∧ 0 < depth ∧ trimL l = ['}'] then (.nil, rest)
    else if braceStyle lang = false ∧ indentOf l < lvl then (.nil, l :: rest)
    else
      match matchLine lang (trimL l) with
      | none =>
        match parseLines lang fuel lvl depth rest with
        | (siblings, rem) =>
          (.cons (.node .unknown [] [] [] l .nil) siblings, rem)
      | some m =>
        if m.blockHeader then
          match parseLines lang fuel (indentOf l + 1) (depth + 1) rest with
          | (children, rest') =>
            match parseLines lang fuel lvl depth rest' with
            | (siblings, rem) =>
              (.cons (.node m.kind m.name m.params m.expr l children) siblings, rem)
        else
          match parseLines lang fuel lvl depth rest with
          | (siblings, rem) =>
            (.cons (.node m.kind m.name m.params m.expr l .nil) siblings, rem)

/-- Modelled from the spec: `extract(sourceText, sourceLang) -> IRNode(Program)`
(§4.1).  Total for every input; unrecognized lines degrade to `Unknown`
nodes. -/
def extract (s : List Char) (lang : Lang) : IRNode :=
  .node .program [] [] [] []
    (parseLines lang (2 * (splitLines s).length + 2) 0 0 (splitLines s)).1

/-! ## Backend Renderer

Modelled from the spec (§4.2): depth-first walk emitting one target-language
template per typed node, indentation synthesized per depth by the target's
convention; `Unknown` nodes re-emit their raw text verbatim. -/

def indentWidth : Lang → Nat
  | .python => 4
  | _ => 2

def indentStr (t : Lang) (d : Nat) : List Char :=
  List.replicate (indentWidth t * d) ' '

/-- Header text of a block construct in the target language (without the
opening delimiter). -/
def headerCore (t : Lang) (k : IRKind) (name params expr : List Char) : List Char :=
  match k, t with
  | .functionDecl, .python => ("def ".toList) ++ name ++ ('(' :: params) ++ [')']
  | .functionDecl, .javascript => ("function ".toList) ++ name ++ ('(' :: params) ++ [')']
  | .functionDecl, .java => ("public static void ".toList) ++ name ++ ('(' :: params) ++ [')']
  | .functionDecl, .csharp => ("public static void ".toList) ++ name ++ ('(' :: params) ++ [')']
  | .functionDecl, .cpp => ("void ".toList) ++ name ++ ('(' :: params) ++ [')']
  | .functionDecl, .go => ("func ".toList) ++ name ++ ('(' :: params) ++ [')']
  | .classDecl, .python => ("class ".toList) ++ name
  | .classDecl, _ => ("class ".toList) ++ name
  | .ifStmt, .python => ("if ".toList) ++ expr
  | .ifStmt, .go => ("if ".toList) ++ expr
  | .ifStmt, _ => ("if (".toList) ++ expr ++ [')']
  | .forStmt, .python => ("for ".toList) ++ expr
  | .forStmt, .go => ("for ".toList) ++ expr
  | .forStmt, _ => ("for (".toList) ++ expr ++ [')']
  | .whileStmt, .python => ("while ".toList) ++ expr
  | .whileStmt, .go => ("for ".toList) ++ expr
  | .whileStmt, _ => ("while (".toList) ++ expr ++ [')']
  | _, _ => []

/-- Statement text of a non-block construct in the target language. -/
def stmtText (t : Lang) (k : IRKind) (name expr raw : List Char) : List Char :=
  match k, t with
  | .printStmt, .python => ("print(".toList) ++ expr ++ [')']
  | .printStmt, .javascript => ("console.log(".toList) ++ expr ++ (");".toList)
  | .printStmt, .java => ("System.out.println(".toList) ++ expr ++ (");".toList)
  | .printStmt, .csharp => ("Console.WriteLine(".toList) ++ expr ++ (");".toList)
  | .printStmt, .cpp => ("std::cout << ".toList) ++ expr ++ (" << std::endl;".toList)
  | .printStmt, .go => ("fmt.Println(".toList) ++ expr ++ [')']
  | .returnStmt, .python => ("return ".toList) ++ expr
  | .returnStmt, .go => ("return ".toList) ++ expr
  | .returnStmt, _ => ("return ".toList) ++ expr ++ [';']
  | .comment, .python => ("# ".toList) ++ expr
  | .comment, _ => ("// ".toList) ++ expr
  | .varDecl, .python => name ++ (" = ".toList) ++ expr
  | .varDecl, .javascript => ("let ".toList) ++ name ++ (" = ".toList) ++ expr ++ [';']
  | .varDecl, .go => name ++ (" := ".toList) ++ expr
  | .varDecl, _ => ("var ".toList) ++ name ++ (" = ".toList) ++ expr ++ [';']
  | .assignment, .python => name ++ (" = ".toList) ++ expr
  | .assignment, .go => name ++ (" = ".toList) ++ expr
  | .assignment, _ => name ++ (" = ".toList) ++ expr ++ [';']
  | _, _ => raw

/-- Block construct kinds. -/
def isBlockKind : IRKind → Bool
  | .functionDecl => true
  | .classDecl => true
  | .ifStmt => true
  | .forStmt => true
  | .whileStmt => true
  | _ => false

/-- Wrap a rendered block body under its header with the target's block
delimiters (indentation + `:` for the scripting target, braces otherwise). -/
def blockWrap (t : Lang) (d : Nat) (header body : List Char) : List Char :=
  if braceStyle t = true then
    indentStr t d ++ header ++ (" \x7b".toList) ++ '\n' ::
      (body ++ '\n' :: indentStr t d ++ ['}'])
  else
    indentStr t d ++ header ++ [':'] ++ '\n' :: body

/-- Depth-first rendering of a list of IR nodes at nesting depth `d`. -/
def renderList (t : Lang) : Nat → IRList → List Char
  | _, .nil => []
  | d, .cons (.node k nm ps ex raw cs) tl =>
    let here : List Char :=
      match k with
      | .program => renderList t d cs
      | .unknown => indentStr t d ++ raw
      | .functionDecl =>
        blockWrap t d (headerCore t .functionDecl nm ps ex) (renderList t (d + 1) cs)
      | .classDecl =>
        blockWrap t d (headerCore t .classDecl nm ps ex) (renderList t (d + 1) cs)
      | .ifStmt =>
        blockWrap t d (headerCore t .ifStmt nm ps ex) (renderList t (d + 1) cs)
      | .forStmt =>
        blockWrap t d (headerCore t .forStmt nm ps ex) (renderList t (d + 1) cs)
      | .whileStmt =>
        blockWrap t d (headerCore t .whileStmt nm ps ex) (renderList t (d + 1) cs)
      | k' => indentStr t d ++ stmtText t k' nm ex raw
    match tl with
    | .nil => here
    | .cons _ _ => here ++ '\n' :: renderList t d tl

/-- Modelled from the spec: `render(IRNode(Program), targetLang) -> string`
(§4.2), a pure function of the IR and the target language. -/
def render (ir : IRNode) (t : Lang) : List Char :=
  renderList t 0 (.cons ir .nil)

/-! ## Quality Metrics Engine

Modelled from the spec (§4.6): `linesOfCode` excludes blank lines and
full-line comments; `functions`/`classes` count pattern matches of the
language's declaration keyword; `complexity` is 1 + branch/loop keyword
occurrences; `readability` buckets a composite score via fixed thresholds. -/

inductive Readability
  | poor
  | fair
  | good
  | excellent
deriving DecidableEq

structure QualityMetrics where
  linesOfCode : Nat
  functions : Nat
  classes : Nat
  complexity : Nat
  readability : Readability
deriving DecidableEq

/-- The language's function-declaration keyword used for counting. -/
def funcKeyword : Lang → List Char
  | .python => "def ".toList
  | .javascript => "function ".toList
  | .go => "func ".toList
  | _ => "void ".toList

/-- A line counted towards `linesOfCode`: neither blank nor a full-line
comment. -/
def countedLine (lang : Lang) (l : List Char) : Bool :=
  !(trimL l).isEmpty && !(startsW (commentTok lang) (trimL l))

def linesOfCodeCount (code : List Char) (lang : Lang) : Nat :=
  ((splitLines code).filter (countedLine lang)).length

def avgLineLen (code : List Char) : Nat :=
  code.length / (splitLines code).length

def readabilityOf (code : List Char) : Readability :=
  let a := avgLineLen code
  if a ≤ 40 then .excellent
  else if a ≤ 60 then .good
  else if a ≤ 80 then .fair
  else .poor

/-- Modelled from the spec: the Quality Metrics Engine entry point (§4.6),
a pure function of `(code, language)`. -/
def generateQualityMetrics (code : List Char) (lang : Lang) : QualityMetrics :=
  { linesOfCode := linesOfCodeCount code lang,
    functions := countSub (funcKeyword lang) code,
    classes := countSub ("class ".toList) code,
    complexity := 1 + countSub ("if ".toList) code +
      countSub ("for ".toList) code + countSub ("while ".toList) code,
    readability := readabilityOf code }

/-! ## Transformer

Modelled from the spec (§4.3): `convertCode(sourceText, sourceLang,
targetLang) -> {success, outputCode, analysis[], error}`.  Languages are
validated against the supported set, then Extractor and Renderer run; the
analysis lines summarize translated vs `Unknown` construct counts.
`success=false` only for empty/non-text input or an unsupported language
tag. -/

inductive ErrKind
  | invalidInput
  | unsupportedLanguage
deriving DecidableEq

structure ConvertResult where
  success : Bool
  outputCode : List Char
  analysis : List (List Char)
  error : Option ErrKind
deriving DecidableEq

/-- Count of typed (non-`Unknown`) nodes in an IR forest. -/
def countKnown : IRList → Nat
  | .nil => 0
  | .cons (.node k _ _ _ _ cs) tl =>
    (if k = .unknown then 0 else 1) + countKnown cs + countKnown tl

/-- Count of `Unknown` nodes in an IR forest. -/
def countUnknown : IRList → Nat
  | .nil => 0
  | .cons (.node k _ _ _ _ cs) tl =>
    (if k = .unknown then 1 else 0) + countUnknown cs + countUnknown tl

def childrenOf : IRNode → IRList
  | .node _ _ _ _ _ cs => cs

/-- Modelled from the spec: the Transformer entry point
`convertCode(sourceText, sourceLang, targetLang)` of §4.3 (the
`CodeTransformer` implementation file is not part of the source snapshot). -/
def convertCode (sourceText sTag tTag : List Char) : ConvertResult :=
  match parseLang sTag, parseLang tTag with
  | some s, some t =>
    if isBlank sourceText = true then
      { success := false, outputCode := [], analysis := [],
        error := some .invalidInput }
    else
      let ir := extract sourceText s
      { success := true, outputCode := render ir t,
        analysis :=
          [("Translated constructs: ".toList) ++
             (Nat.repr (countKnown (childrenOf ir))).toList,
           ("Untranslated constructs: ".toList) ++
             (Nat.repr (countUnknown (childrenOf ir))).toList],
        error := none }
  | _, _ =>
    { success := false, outputCode := [], analysis := [],
      error := some .unsupportedLanguage }

/-! ## GeminiService (embedded from src/unnamed/part_000)

The constructor reads `GEMINI_API_KEY`; `genAI`/`model` are initialized iff
the key is present.  Each AI method throws when the client is not
initialized, and otherwise wraps the model call in try/catch, returning
`success=false` with the error message on failure.  The nondeterministic
outcome of `model.generateContent` is passed in as a `ModelOutcome`. -/

structure GeminiService where
  configured : Bool

/-- `new GeminiService()` with the given environment key. -/
def GeminiService.mkService (apiKey : Option (List Char)) : GeminiService :=
  { configured := apiKey.isSome }

/-- `isConfigured()`: `genAI !== null && model !== null`. -/
def GeminiService.isConfigured (svc : GeminiService) : Bool := svc.configured

/-- Outcome of one `model.generateContent` call. -/
inductive ModelOutcome
  | ok (text : List Char)
  | fail (msg : List Char)

def backtick : Char := Char.ofNat 96

def isWordChar (c : Char) : Bool := c.isAlpha || c.isDigit || c = '_'

/-- JS `String.prototype.trim`. -/
def trimWS (l : List Char) : List Char :=
  ((l.dropWhile isWS).reverse.dropWhile isWS).reverse

/-- The markdown-fence cleanup `replace(/BTBTBT[\w]*\n?/g, '')` (with BT a
backtick) followed by removing leftover fences. -/
def stripFence : Bool → List Char → List Char
  | _, [] => []
  | true, c :: rest =>
    if isWordChar c then stripFence true rest
    else if c = '\n' then stripFence false rest
    else stripFence false (c :: rest)
  | false, c1 :: c2 :: c3 :: rest =>
    if c1 = backtick ∧ c2 = backtick ∧ c3 = backtick then stripFence true rest
    else c1 :: stripFence false (c2 :: c3 :: rest)
  | false, c :: rest => c :: stripFence false rest
termination_by b l => (l.length, if b then 1 else 0)

/-- `trim`, fence cleanup, `trim` — the response cleanup used by the AI
convert/fix methods. -/
def cleanAIText (text : List Char) : List Char :=
  trimWS (stripFence false (trimWS text))

structure AIConvertResult where
  code : List Char
  success : Bool
  error : Option (List Char)
  analysis : List (List Char)
deriving DecidableEq

/-- `convertCodeWithAI(sourceCode, sourceLang, targetLang)`. -/
def GeminiService.convertCodeWithAI (svc : GeminiService)
    (outcome : ModelOutcome) (sourceLang targetLang : List Char) :
    Except (List Char) AIConvertResult :=
  if svc.configured = false then
    .error ("Gemini API key not configured".toList)
  else
    match outcome with
    | .ok text =>
      .ok { code := cleanAIText text, success := true, error := none,
            analysis :=
              [("✅ AI-powered conversion from ".toList) ++ sourceLang ++
                 (" to ".toList) ++ targetLang,
               "✅ Code analyzed and transformed using Gemini 1.5 Flash".toList,
               "✅ Functionality preserved during conversion".toList] }
    | .fail msg =>
      .ok { code := [], success := false, error := some msg,
            analysis := [("❌ AI conversion failed: ".toList) ++ msg] }

/-- `fixCodeWithAI(code, language)`. -/
def GeminiService.fixCodeWithAI (svc : GeminiService)
    (outcome : ModelOutcome) : Except (List Char) AIConvertResult :=
  if svc.configured = false then
    .error ("Gemini API key not configured".toList)
  else
    match outcome with
    | .ok text =>
      .ok { code := cleanAIText text, success := true, error := none,
            analysis :=
              ["✅ AI-powered code analysis and fixing".toList,
               "✅ Syntax errors identified and corrected".toList,
               "✅ Code quality improved using Gemini 1.5 Flash".toList,
               "✅ Best practices applied".toList] }
    | .fail msg =>
      .ok { code := [], success := false, error := some msg,
            analysis := [("❌ AI code fixing failed: ".toList) ++ msg] }

structure AITextResult where
  text : List Char
  success : Bool
  error : Option (List Char)
deriving DecidableEq

/-- `analyzeCodeQuality(code, language)`: the `analysis` field is `text`. -/
def GeminiService.analyzeCodeQuality (svc : GeminiService)
    (outcome : ModelOutcome) : Except (List Char) AITextResult :=
  if svc.configured = false then
    .error ("Gemini API key not configured".toList)
  else
    match outcome with
    | .ok text => .ok { text := trimWS text, success := true, error := none }
    | .fail msg => .ok { text := [], success := false, error := some msg }

/-- `generateCodeExplanation(code, language)`: the `explanation` field is
`text`. -/
def GeminiService.generateCodeExplanation (svc : GeminiService)
    (outcome : ModelOutcome) : Except (List Char) AITextResult :=
  if svc.configured = false then
    .error ("Gemini API key not configured".toList)
  else
    match outcome with
    | .ok text => .ok { text := trimWS text, success := true, error := none }
    | .fail msg => .ok { text := [], success := false, error := some msg }

/-- `suggestImprovements(code, language)`: the `suggestions` field is
`text`. -/
def GeminiService.suggestImprovements (svc : GeminiService)
    (outcome : ModelOutcome) : Except (List Char) AITextResult :=
  if svc.configured = false then
    .error ("Gemini API key not configured".toList)
  else
    match outcome with
    | .ok text => .ok { text := trimWS text, success := true, error := none }
    | .fail msg => .ok { text := [], success := false, error := some msg }

/-! ## HTTP route layer (embedded from src/server/routes/convert.js)

`saveHistory` returns `null` when Supabase is not configured, and catches
insert errors, returning `null`; the Supabase outcome is passed in as a
`PersistOutcome`.  The `/convert` and `/fix` handlers validate required
fields (JS truthiness: the empty string is missing), run the AI or
rule-based engine, attach quality metrics and analysis lines, save history,
and respond; engine failure gives status 500 with the error message. -/

inductive PersistOutcome
  | notConfigured
  | insertError (msg : List Char)
  | ok (rowId : Nat)

/-- `saveHistory(...)`: the persisted row's id, or `null`. -/
def saveHistory : PersistOutcome → Option Nat
  | .notConfigured => none
  | .insertError _ => none
  | .ok rowId => some rowId

structure ConvertRequest where
  sourceLang : List Char
  targetLang : List Char
  inputCode : List Char
  useAI : Bool

structure FixRequest where
  language : List Char
  inputCode : List Char
  useAI : Bool

structure RouteResponse where
  status : Nat
  errMsg : Option (List Char)
  outputCode : Option (List Char)
  analysis : List (List Char)
  rowId : Option Nat
  useAI : Bool
  qualityMetrics : Option QualityMetrics
deriving DecidableEq

/-- The target-language view used by the analyzer/metrics steps of a route;
on the routes' success paths the tag is always a supported one. -/
def parseLangD (tag : List Char) : Lang := (parseLang tag).getD .python

def errKindText : ErrKind → List Char
  | .invalidInput => "Invalid or empty input".toList
  | .unsupportedLanguage => "Unsupported language".toList

def readabilityText : Readability → List Char
  | .poor => "Poor".toList
  | .fair => "Fair".toList
  | .good => "Good".toList
  | .excellent => "Excellent".toList

def findingText : Finding → List Char
  | .unmatchedCloser c => ("Unmatched closing bracket ".toList) ++ [c]
  | .unmatchedOpener c => ("Unmatched opening bracket ".toList) ++ [c]
  | .unterminatedString q n =>
    ("Unterminated string ".toList) ++ [q] ++ (" on line ".toList) ++
      (Nat.repr n).toList
  | .missingTerminator n =>
    ("Missing statement terminator on line ".toList) ++ (Nat.repr n).toList
  | .blockWithoutIndent n =>
    ("Block header without indented body on line ".toList) ++
      (Nat.repr n).toList
  | .longLine n => ("Long line ".toList) ++ (Nat.repr n).toList

def fixText : FixRecord → List Char
  | .insertBracket c => ("Inserted missing bracket ".toList) ++ [c]
  | .closeString q n =>
    ("Closed unterminated string ".toList) ++ [q] ++ (" on line ".toList) ++
      (Nat.repr n).toList
  | .insertTerminator n =>
    ("Inserted missing terminator on line ".toList) ++ (Nat.repr n).toList

/-- Unified engine-step result inside a route handler. -/
structure StepResult where
  success : Bool
  code : List Char
  errText : Option (List Char)
  analysis : List (List Char)

/-- The quality-metric analysis lines appended by `/convert`. -/
def metricLines (qm : QualityMetrics) : List (List Char) :=
  [("✅ Code quality: ".toList) ++ readabilityText qm.readability,
   ("✅ Lines of code: ".toList) ++ (Nat.repr qm.linesOfCode).toList,
   ("✅ Functions: ".toList) ++ (Nat.repr qm.functions).toList,
   ("✅ Classes: ".toList) ++ (Nat.repr qm.classes).toList]

/-- `router.post('/convert')`. -/
def handleConvert (req : ConvertRequest) (svc : GeminiService)
    (aiOutcome : ModelOutcome) (persist : PersistOutcome) : RouteResponse :=
  if req.sourceLang = [] ∨ req.targetLang = [] ∨ req.inputCode = [] then
    { status := 400,
      errMsg := some ("sourceLang, targetLang, inputCode required".toList),
      outputCode := none, analysis := [], rowId := none, useAI := req.useAI,
      qualityMetrics := none }
  else
    match
      (if req.useAI = true ∧ svc.isConfigured = true then
        match svc.convertCodeWithAI aiOutcome req.sourceLang req.targetLang with
        | .error e => .error e
        | .ok r => .ok { success := r.success, code := r.code,
                         errText := r.error, analysis := r.analysis }
      else
        let r := convertCode req.inputCode req.sourceLang req.targetLang
        (.ok { success := r.success, code := r.outputCode,
               errText := r.error.map errKindText, analysis := r.analysis } :
          Except (List Char) StepResult))
    with
    | .error e =>
      { status := 500, errMsg := some e, outputCode := none, analysis := [],
        rowId := none, useAI := req.useAI, qualityMetrics := none }
    | .ok step =>
      if step.success = false then
        { status := 500, errMsg := step.errText, outputCode := none,
          analysis := [], rowId := none, useAI := req.useAI,
          qualityMetrics := none }
      else
        let t := parseLangD req.targetLang
        let syn := analyzeSyntax step.code t
        let qm := generateQualityMetrics step.code t
        let combined := step.analysis ++ metricLines qm ++
          syn.warnings.map (fun w => ("⚠️ ".toList) ++ findingText w) ++
          syn.suggestions.map (fun s => ("💡 ".toList) ++ findingText s)
        { status := 200, errMsg := none, outputCode := some step.code,
          analysis := combined, rowId := saveHistory persist,
          useAI := req.useAI, qualityMetrics := some qm }

/-- `router.post('/fix')`. -/
def handleFix (req : FixRequest) (svc : GeminiService)
    (aiOutcome : ModelOutcome) (persist : PersistOutcome) : RouteResponse :=
  if req.language = [] ∨ req.inputCode = [] then
    { status := 400,
      errMsg := some ("language, inputCode required".toList),
      outputCode := none, analysis := [], rowId := none, useAI := req.useAI,
      qualityMetrics := none }
  else
    match
      (if req.useAI = true ∧ svc.isConfigured = true then
        match svc.fixCodeWithAI aiOutcome with
        | .error e => .error e
        | .ok r => .ok { success := r.success, code := r.code,
                         errText := r.error, analysis := r.analysis }
      else
        let lang := parseLangD req.language
        let syn := analyzeSyntax req.inputCode lang
        let fr := fixSyntaxErrors req.inputCode lang
        (.ok { success := true, code := fr.code, errText := none,
               analysis :=
                 ["✅ Syntax analysis completed".toList,
                  ("✅ Found ".toList) ++ (Nat.repr syn.errors.length).toList ++
                    (" errors".toList),
                  ("✅ Found ".toList) ++ (Nat.repr syn.warnings.length).toList ++
                    (" warnings".toList)] ++
                 fr.fixes.map (fun f => ("✅ ".toList) ++ fixText f) ++
                 syn.warnings.map (fun w => ("⚠️ ".toList) ++ findingText w) ++
                 syn.suggestions.map (fun s => ("💡 ".toList) ++ findingText s) } :
          Except (List Char) StepResult))
    with
    | .error e =>
      { status := 500, errMsg := some e, outputCode := none, analysis := [],
        rowId := none, useAI := req.useAI, qualityMetrics := none }
    | .ok step =>
      if step.success = false then
        { status := 500, errMsg := step.errText, outputCode := none,
          analysis := [], rowId := none, useAI := req.useAI,
          qualityMetrics := none }
      else
        let lang := parseLangD req.language
        let qm := generateQualityMetrics step.code lang
        { status := 200, errMsg := none, outputCode := some step.code,
          analysis := step.analysis ++ metricLines qm,
          rowId := saveHistory persist, useAI := req.useAI,
          qualityMetrics := some qm }

/-- A route response with its persistence-produced id masked out. -/
def stripRow (r : RouteResponse) : RouteResponse := { r with rowId := none }

/-! ## Claim theorems -/

/-- C1: `convertCode(sourceText, sourceLang, targetLang)` has `success=false`
iff the input is empty/non-text or one of the language tags lies outside the
supported six-language set; every non-blank input with both tags supported
succeeds; and `convertCode("", "Python", "Go")` fails with an
invalid/empty-input error. -/
theorem claim_C1 :
    (∀ (src sTag tTag : List Char),
      (convertCode src sTag tTag).success = false ↔
        (isBlank src = true ∨ parseLang sTag = none ∨ parseLang tTag = none)) ∧
    (convertCode [] ("Python".toList) ("Go".toList)).success = false ∧
    (convertCode [] ("Python".toList) ("Go".toList)).error
      = some ErrKind.invalidInput := by
  refine ⟨?_, by decide, by decide⟩
  intro src sTag tTag
  cases hs : parseLang sTag with
  | none => simp [convertCode, hs]
  | some s =>
    cases ht : parseLang tTag with
    | none => simp [convertCode, hs, ht]
    | some t =>
      by_cases hb : isBlank src = true
      · simp [convertCode, hs, ht, hb]
      · simp [convertCode, hs, ht, hb]

/-- C2: conversion is deterministic — the transformer and the renderer are
pure functions, so two calls on the same `(code, sourceLang, targetLang)`
(resp. the same IR and target) give byte-identical output. -/
theorem claim_C2 :
    (∀ (code sTag tTag : List Char),
      convertCode code sTag tTag = convertCode code sTag tTag) ∧
    (∀ (ir : IRNode) (t : Lang), render ir t = render ir t) :=
  ⟨fun _ _ _ => rfl, fun _ _ => rfl⟩

/-- C4: fixing is idempotent — running `fixSyntaxErrors` on the code
component of a previous `fixSyntaxErrors` result returns that code unchanged
with an empty `fixes` list. -/
theorem claim_C4 (code : List Char) (lang : Lang) :
    fixSyntaxErrors (fixSyntaxErrors code lang).code lang
      = ⟨(fixSyntaxErrors code lang).code, []⟩ :=
  fixSyntaxErrors_idem_aux code lang

/-- C5: after `fixSyntaxErrors`, a fresh `analyzeSyntax` run reports zero
brace/paren/bracket-balance errors. -/
theorem claim_C5 (code : List Char) (lang : Lang) :
    ((analyzeSyntax (fixSyntaxErrors code lang).code lang).errors).filter
      isBalanceFinding = [] :=
  analyzeSyntax_fix_balance_aux code lang

/-- C6: converting `"def add(a, b):\n    return a + b"` from Python to
JavaScript succeeds, the output contains a `function add(a, b) {` header and
a `return a + b;` statement, and the quality metrics report exactly one
function for the output. -/
theorem claim_C6 :
    (convertCode ("def add(a, b):\n    return a + b".toList)
      ("Python".toList) ("JavaScript".toList)).success = true ∧
    containsSub ("function add(a, b) \x7b".toList)
      ((convertCode ("def add(a, b):\n    return a + b".toList)
        ("Python".toList) ("JavaScript".toList)).outputCode) = true ∧
    containsSub ("return a + b;".toList)
      ((convertCode ("def add(a, b):\n    return a + b".toList)
        ("Python".toList) ("JavaScript".toList)).outputCode) = true ∧
    (generateQualityMetrics
      ((convertCode ("def add(a, b):\n    return a + b".toList)
        ("Python".toList) ("JavaScript".toList)).outputCode)
      .javascript).functions = 1 := by
  refine ⟨?_, ?_, ?_, ?_⟩ <;> decide

/-- C7 counterexample: on the one-line Python input `print("hi`,
`analyzeSyntax` yields two Error findings (the unmatched `(` balance error
and the unterminated string), not exactly one, and `fixSyntaxErrors` returns
two FixRecords, not exactly one. -/
theorem claim_C7_counterexample :
    ¬ ((analyzeSyntax ("print(\"hi".toList) Lang.python).errors.length = 1 ∧
       (fixSyntaxErrors ("print(\"hi".toList) Lang.python).fixes.length = 1) ∧
    (analyzeSyntax ("print(\"hi".toList) Lang.python).errors.length = 2 ∧
    (fixSyntaxErrors ("print(\"hi".toList) Lang.python).fixes.length = 2 := by
  refine ⟨?_, ?_, ?_⟩ <;> decide

/-- C7 (amended): on the one-line Python input `print("hi`, `analyzeSyntax`
yields exactly two Error findings — an unmatched-`(` balance error and an
unterminated-string error referencing line 1 — and `fixSyntaxErrors` appends
the missing `)` and the closing quote at the end of that line, returning
exactly two FixRecords, the string-closing one referencing line 1. -/
theorem claim_C7 :
    (analyzeSyntax ("print(\"hi".toList) Lang.python).errors
      = [.unmatchedOpener '(', .unterminatedString '"' 1] ∧
    fixSyntaxErrors ("print(\"hi".toList) Lang.python
      = ⟨"print(\"hi)\"".toList,
         [.insertBracket ')', .closeString '"' 1]⟩ := by
  refine ⟨?_, ?_⟩ <;> decide

theorem parseLines_nil (lang : Lang) (fuel lvl depth : Nat) :
    parseLines lang fuel lvl depth [] = (.nil, []) := by
  cases fuel with
  | zero => rfl
  | succ f => rfl

theorem parseLines_single (lang : Lang) (fuel : Nat) (l : List Char)
    (hm : matchLine lang (trimL l) = none) :
    parseLines lang (fuel + 2) 0 0 [l]
      = (.cons (.node .unknown [] [] [] l .nil) .nil, []) := by
  show parseLines lang ((fuel + 1) + 1) 0 0 (l :: []) = _
  rw [parseLines]
  rw [if_neg (by simp), if_neg (by simp), hm]
  rw [parseLines_nil]

/-- C3: the extractor is total — it returns a `Program` node for every input
and source language — and on a line that matches no construct pattern the
result degrades to a `Program` whose only child is a single `Unknown` node
holding the entire input verbatim. -/
theorem claim_C3 :
    (∀ (s : List Char) (lang : Lang), kindOf (extract s lang) = .program) ∧
    (∀ (s : List Char) (lang : Lang), '\n' ∉ s →
      matchLine lang (trimL s) = none →
      extract s lang = .node .program [] [] [] []
        (.cons (.node .unknown [] [] [] s .nil) .nil)) := by
  constructor
  · intro s lang
    rfl
  · intro s lang hnl hm
    unfold extract
    rw [splitLines_no_newline hnl]
    rw [show 2 * ([s] : List (List Char)).length + 2 = 2 + 2 from rfl]
    rw [parseLines_single lang 2 s hm]

/-- C3 witness: the single-line input `@@@@` matches no Python pattern, and
extraction yields the one-`Unknown`-child program. -/
theorem claim_C3_witness :
    ('\n' ∉ ("@@@@".toList) ∧
      matchLine Lang.python (trimL ("@@@@".toList)) = none) ∧
    extract ("@@@@".toList) Lang.python = .node .program [] [] [] []
      (.cons (.node .unknown [] [] [] ("@@@@".toList) .nil) .nil) :=
  ⟨⟨by decide, by decide⟩, claim_C3.2 _ _ (by decide) (by decide)⟩

theorem startsW_cons {c : Char} {pre l : List Char}
    (h : startsW (c :: pre) l = true) : ∃ rest, l = c :: rest := by
  cases l with
  | nil => simp [startsW] at h
  | cons x xs =>
    refine ⟨xs, ?_⟩
    simp only [startsW, List.length_cons, List.take_succ_cons,
      decide_eq_true_eq] at h
    injection h with h1 h2
    rw [h1]

theorem funcKeyword_ne_nil (lang : Lang) : funcKeyword lang ≠ [] := by
  cases lang <;> decide

theorem countedLine_of_startsW_kw (lang : Lang) {decl : List Char}
    (hkw : startsW (funcKeyword lang) decl = true) :
    countedLine lang decl = true := by
  cases lang <;>
  · obtain ⟨rest, rfl⟩ := startsW_cons hkw
    simp [countedLine, trimL, commentTok, startsW, List.isEmpty]

/-- C8: metrics monotonicity — appending (on a new line) a well-formed
function declaration of the language, i.e. a newline-free line starting with
the language's function-declaration keyword, strictly increases both the
`functions` count and the `linesOfCode` count. -/
theorem claim_C8 (code decl : List Char) (lang : Lang)
    (hnl : '\n' ∉ decl) (hkw : startsW (funcKeyword lang) decl = true) :
    (generateQualityMetrics (code ++ '\n' :: decl) lang).functions >
      (generateQualityMetrics code lang).functions ∧
    (generateQualityMetrics (code ++ '\n' :: decl) lang).linesOfCode >
      (generateQualityMetrics code lang).linesOfCode := by
  constructor
  · show countSub (funcKeyword lang) code <
      countSub (funcKeyword lang) (code ++ '\n' :: decl)
    have h1 := countSub_append_ge (funcKeyword lang) code ('\n' :: decl)
    have h2 := countSub_cons_ge (funcKeyword lang) '\n' decl
    have h3 := countSub_pos_of_startsW (funcKeyword_ne_nil lang) hkw
    omega
  · show linesOfCodeCount code lang < linesOfCodeCount (code ++ '\n' :: decl) lang
    unfold linesOfCodeCount
    rw [splitLines_append_newline, splitLines_no_newline hnl,
      List.filter_append, List.length_append]
    have hcount : (List.filter (countedLine lang) [decl]).length = 1 := by
      rw [List.filter_cons, if_pos (countedLine_of_startsW_kw lang hkw)]
      rfl
    omega

/-- C8 witness: appending `def f():` to `x = 1` for Python strictly
increases both counts. -/
theorem claim_C8_witness :
    ('\n' ∉ ("def f():".toList) ∧
      startsW (funcKeyword Lang.python) ("def f():".toList) = true) ∧
    ((generateQualityMetrics (("x = 1".toList) ++ '\n' :: ("def f():".toList))
        Lang.python).functions >
      (generateQualityMetrics ("x = 1".toList) Lang.python).functions ∧
     (generateQualityMetrics (("x = 1".toList) ++ '\n' :: ("def f():".toList))
        Lang.python).linesOfCode >
      (generateQualityMetrics ("x = 1".toList) Lang.python).linesOfCode) :=
  ⟨⟨by decide, by decide⟩,
    claim_C8 ("x = 1".toList) ("def f():".toList) Lang.python
      (by decide) (by decide)⟩

/-- C9: every GeminiService AI method throws iff the service is unconfigured
(no `GEMINI_API_KEY` at construction); when configured, a failing model call
is caught and returned as a value with `success=false` carrying the error
message, never propagated as an exception. -/
theorem claim_C9 :
    (∀ key, (GeminiService.mkService key).isConfigured = key.isSome) ∧
    (∀ (svc : GeminiService) (o : ModelOutcome) (sLang tLang : List Char),
      ((∃ e, svc.convertCodeWithAI o sLang tLang = .error e) ↔
        svc.isConfigured = false) ∧
      (∀ m, svc.isConfigured = true →
        svc.convertCodeWithAI (.fail m) sLang tLang
          = .ok { code := [], success := false, error := some m,
                  analysis := [("❌ AI conversion failed: ".toList) ++ m] })) ∧
    (∀ (svc : GeminiService) (o : ModelOutcome),
      ((∃ e, svc.fixCodeWithAI o = .error e) ↔ svc.isConfigured = false) ∧
      (∀ m, svc.isConfigured = true →
        svc.fixCodeWithAI (.fail m)
          = .ok { code := [], success := false, error := some m,
                  analysis := [("❌ AI code fixing failed: ".toList) ++ m] })) ∧
    (∀ (svc : GeminiService) (o : ModelOutcome),
      ((∃ e, svc.analyzeCodeQuality o = .error e) ↔ svc.isConfigured = false) ∧
      (∀ m, svc.isConfigured = true →
        svc.analyzeCodeQuality (.fail m)
          = .ok { text := [], success := false, error := some m })) ∧
    (∀ (svc : GeminiService) (o : ModelOutcome),
      ((∃ e, svc.generateCodeExplanation o = .error e) ↔
        svc.isConfigured = false) ∧
      (∀ m, svc.isConfigured = true →
        svc.generateCodeExplanation (.fail m)
          = .ok { text := [], success := false, error := some m })) ∧
    (∀ (svc : GeminiService) (o : ModelOutcome),
      ((∃ e, svc.suggestImprovements o = .error e) ↔ svc.isConfigured = false) ∧
      (∀ m, svc.isConfigured = true →
        svc.suggestImprovements (.fail m)
          = .ok { text := [], success := false, error := some m })) := by
  refine ⟨fun key => rfl, ?_, ?_, ?_, ?_, ?_⟩
  · intro svc o sLang tLang
    constructor
    · constructor
      · rintro ⟨e, he⟩
        by_contra hconf
        rw [Bool.not_eq_false] at hconf
        unfold GeminiService.convertCodeWithAI at he
        rw [show svc.configured = true from hconf] at he
        cases o <;> simp at he
      · intro hconf
        refine ⟨"Gemini API key not configured".toList, ?_⟩
        unfold GeminiService.convertCodeWithAI
        rw [show svc.configured = false from hconf]
        rfl
    · intro m hconf
      unfold GeminiService.convertCodeWithAI
      rw [show svc.configured = true from hconf]
      rfl
  · intro svc o
    constructor
    · constructor
      · rintro ⟨e, he⟩
        by_contra hconf
        rw [Bool.not_eq_false] at hconf
        unfold GeminiService.fixCodeWithAI at he
        rw [show svc.configured = true from hconf] at he
        cases o <;> simp at he
      · intro hconf
        refine ⟨"Gemini API key not configured".toList, ?_⟩
        unfold GeminiService.fixCodeWithAI
        rw [show svc.configured = false from hconf]
        rfl
    · intro m hconf
      unfold GeminiService.fixCodeWithAI
      rw [show svc.configured = true from hconf]
      rfl
  · intro svc o
    constructor
    · constructor
      · rintro ⟨e, he⟩
        by_contra hconf
        rw [Bool.not_eq_false] at hconf
        unfold GeminiService.analyzeCodeQuality at he
        rw [show svc.configured = true from hconf] at he
        cases o <;> simp at he
      · intro hconf
        refine ⟨"Gemini API key not configured".toList, ?_⟩
        unfold GeminiService.analyzeCodeQuality
        rw [show svc.configured = false from hconf]
        rfl
    · intro m hconf
      unfold GeminiService.analyzeCodeQuality
      rw [show svc.configured = true from hconf]
      rfl
  · intro svc o
    constructor
    · constructor
      · rintro ⟨e, he⟩
        by_contra hconf
        rw [Bool.not_eq_false] at hconf
        unfold GeminiService.generateCodeExplanation at he
        rw [show svc.configured = true from hconf] at he
        cases o <;> simp at he
      · intro hconf
        refine ⟨"Gemini API key not configured".toList, ?_⟩
        unfold GeminiService.generateCodeExplanation
        rw [show svc.configured = false from hconf]
        rfl
    · intro m hconf
      unfold GeminiService.generateCodeExplanation
      rw [show svc.configured = true from hconf]
      rfl
  · intro svc o
    constructor
    · constructor
      · rintro ⟨e, he⟩
        by_contra hconf
        rw [Bool.not_eq_false] at hconf
        unfold GeminiService.suggestImprovements at he
        rw [show svc.configured = true from hconf] at he
        cases o <;> simp at he
      · intro hconf
        refine ⟨"Gemini API key not configured".toList, ?_⟩
        unfold GeminiService.suggestImprovements
        rw [show svc.configured = false from hconf]
        rfl
    · intro m hconf
      unfold GeminiService.suggestImprovements
      rw [show svc.configured = true from hconf]
      rfl

/-- C9 witness: a service built with a key is configured, and a failing
model call on it is returned as a `success=false` value. -/
theorem claim_C9_witness :
    ((GeminiService.mkService (some ("k".toList))).isConfigured = true) ∧
    (GeminiService.mkService (some ("k".toList))).convertCodeWithAI
        (.fail ("boom".toList)) ("Python".toList) ("Go".toList)
      = .ok { code := [], success := false, error := some ("boom".toList),
              analysis :=
                [("❌ AI conversion failed: ".toList) ++ ("boom".toList)] } :=
  ⟨by decide,
    (claim_C9.2.1 (GeminiService.mkService (some ("k".toList)))
      (.fail ("boom".toList)) ("Python".toList) ("Go".toList)).2
      ("boom".toList) (by decide)⟩

/-- C10: history persistence never affects the core result — `saveHistory`
returns `null` (no exception) when Supabase is unconfigured or the insert
fails, and the `/convert` and `/fix` responses are identical for any two
persistence outcomes except for the `id` field, which is absent when
persistence fails. -/
theorem claim_C10 :
    (saveHistory .notConfigured = none) ∧
    (∀ m, saveHistory (.insertError m) = none) ∧
    (∀ req svc o p1 p2,
      stripRow (handleConvert req svc o p1) = stripRow (handleConvert req svc o p2)) ∧
    (∀ req svc o p1 p2,
      stripRow (handleFix req svc o p1) = stripRow (handleFix req svc o p2)) ∧
    (∀ req svc o, (handleConvert req svc o .notConfigured).rowId = none) ∧
    (∀ req svc o m, (handleConvert req svc o (.insertError m)).rowId = none) ∧
    (∀ req svc o, (handleFix req svc o .notConfigured).rowId = none) ∧
    (∀ req svc o m, (handleFix req svc o (.insertError m)).rowId = none) := by
  refine ⟨rfl, fun m => rfl, ?_, ?_, ?_, ?_, ?_, ?_⟩
  · intro req svc o p1 p2
    unfold handleConvert
    split
    · rfl
    · split
      · rfl
      · split
        · rfl
        · rfl
  · intro req svc o p1 p2
    unfold handleFix
    split
    · rfl
    · split
      · rfl
      · split
        · rfl
        · rfl
  · intro req svc o
    unfold handleConvert
    split
    · rfl
    · split
      · rfl
      · split
        · rfl
        · rfl
  · intro req svc o m
    unfold handleConvert
    split
    · rfl
    · split
      · rfl
      · split
        · rfl
        · rfl
  · intro req svc o
    unfold handleFix
    split
    · rfl
    · split
      · rfl
      · split
        · rfl
        · rfl
  · intro req svc o m
    unfold handleFix
    split
    · rfl
    · split
      · rfl
      · split
        · rfl
        · rfl

end CodeConverter
